import Mathlib

/-!
# os_joinrate: join-rate token bucket, policy store and admin command

A shallow embedding of `src/os_joinrate.cpp`.

Conventions of the embedding

* A `JRConfig *` is an address (`Nat`).  Every `JRConfig` registers itself in
  `configs` in its constructor and removes itself in its destructor, so the
  vector `configs` is exactly the set of live `JRConfig` objects: it is kept as
  the list of the objects themselves, each tagged with its address, in vector
  order.  Dereferencing a pointer is a look-up by address; `NULL` and pointers
  to destroyed objects do not dereference (`Fault`).
* `buckets` is the hash map from channel name to bucket, kept as an association
  list.  A `JRBucket *` is the map entry (key and contents); writes through the
  pointer go back to that key.
* `int` values are integers; the one place where a wider value is stored into an
  `int` (`tokens += long`) reduces it to 32 bits, `wrap32`.  `time_t` values and
  the `long` arithmetic on them are unbounded integers: seconds since the epoch
  stay far inside 64 bits, and signed overflow has no defined result to model.
* `/` of C++ truncates toward zero: `Int.tdiv`.  Division by zero is a `Fault`.
* `Anope::CurTime` is passed as an argument.
* `Anope::string::lower`, `equals_ci` and `convertTo<int>` belong to the Anope
  core: the first two are the ASCII case mapping, the third is a parameter.
-/

namespace JoinRate

/-! ## Anope core helpers -/

/-- Lower-casing of `Anope::string::lower` (ASCII case map). -/
def lower (s : String) : String := String.mk (s.data.map Char.toLower)

/-- Case-insensitive equality of `Anope::string::equals_ci`. -/
def equals_ci (a b : String) : Bool := lower a == lower b

/-- Conversion of a `long` to `int`: reduction modulo `2^32` into
`[-2^31, 2^31)`. -/
def wrap32 (x : Int) : Int := (x + 2147483648) % 4294967296 - 2147483648

/-! ## Data model -/

/-- Runtime state of one channel: `struct JRBucket`. -/
structure JRBucket where
  tokens : Int
  last_join_time : Int
  last_warn_time : Int
  deriving DecidableEq, Repr

/-- One stored policy: `struct JRConfig`, tagged with the address of the
object. -/
structure JRConfig where
  addr : Nat
  chname : String
  rate : Int
  time : Int
  deriving DecidableEq, Repr

/-- What goes wrong when the C++ code has no defined behaviour. -/
inductive Fault where
  | null_deref
  | dangling_deref
  | div_by_zero
  deriving DecidableEq, Repr

/-- The globals `configs`, `default_config`, `buckets` and the module's
`ready` flag. -/
structure State where
  configs : List JRConfig
  default_config : Option Nat
  buckets : List (String × JRBucket)
  ready : Bool
  deriving DecidableEq, Repr

deriving instance DecidableEq for Except

/-- The outcome of `OnJoinChannel`, named after the branch taken:
`Ignored` for the three guard returns, `AdmitSilently` for the disabled-policy
return, `Admit` for `tokens--`, `Warn` for the branch that logs, and
`WarnSuppressedByPolicy` when neither branch of the final `if` runs. -/
inductive Decision where
  | Ignored
  | AdmitSilently
  | Admit
  | WarnSuppressedByPolicy
  | Warn
  deriving DecidableEq, Repr

/-- The messages of `source.Reply`; `usage_error` is `OnSyntaxError`. -/
inductive Reply where
  | usage_error
  | threshold_default (chname : String) (rate time : Int)
  | threshold (chname : String) (rate time : Int)
  | returned_to_default (chname : String)
  | provide_rate_and_time
  | invalid_value
  | now_set (chname : String) (rate time : Int)
  deriving DecidableEq, Repr

/-- The arguments of `OnJoinChannel` as far as the function reads them:
`c` is the channel (`none` for `NULL`) with its name, `Me` is `none` for `NULL`
and otherwise `Me->IsSynced()`, `ulined` is `u->server->IsULined()` and
`server_synced` is `u->server->IsSynced()`. -/
structure JoinEvent where
  c : Option String
  Me : Option Bool
  ulined : Bool
  server_synced : Bool
  deriving DecidableEq, Repr

/-! ## JRConfig -/

/-- Linear scan of `JRConfig::Find`: the first object whose name equals
`chname` ignoring case. -/
def JRConfig.Find (configs : List JRConfig) (chname : String) : Option JRConfig :=
  configs.find? (fun config => equals_ci config.chname chname)

/-- Reading through a `JRConfig *`. -/
def deref (configs : List JRConfig) : Option Nat → Except Fault JRConfig
  | none => .error .null_deref
  | some a =>
    match configs.find? (fun config => config.addr == a) with
    | none => .error .dangling_deref
    | some config => .ok config

/-- An address no live object and no held pointer has. -/
def fresh_addr (configs : List JRConfig) (default_config : Option Nat) : Nat :=
  (configs.map (fun config => config.addr)).foldr max (default_config.getD 0) + 1

/-- Destructor `~JRConfig`: `std::find` of `this` in `configs`, then `erase`. -/
def JRConfig.destroy : List JRConfig → Nat → List JRConfig
  | [], _ => []
  | config :: rest, a =>
    if config.addr = a then rest else config :: JRConfig.destroy rest a

/-- Writes `chname`, `rate` and `time` through the pointer `a`. -/
def JRConfig.assign (configs : List JRConfig) (a : Nat) (chname : String) (rate time : Int) :
    List JRConfig :=
  configs.map (fun config =>
    if config.addr = a then { config with chname := chname, rate := rate, time := time }
    else config)

/-! ## JRBucket -/

/-- Lookup of `JRBucket::Find`: lower-cases the name, then `buckets.find`. -/
def JRBucket.Find (buckets : List (String × JRBucket)) (c : String) :
    Option (String × JRBucket) :=
  let c := lower c
  buckets.find? (fun entry => entry.1 == c)

/-- Write through a `JRBucket *`: the entry stored under `key` gets the new
contents. -/
def JRBucket.write (buckets : List (String × JRBucket)) (key : String) (b : JRBucket) :
    List (String × JRBucket) :=
  buckets.map (fun entry => if entry.1 == key then (entry.1, b) else entry)

/-- Assignment of `buckets[c] = this` in the constructor. -/
def JRBucket.insert (buckets : List (String × JRBucket)) (c : String) (b : JRBucket) :
    List (String × JRBucket) :=
  if buckets.any (fun entry => entry.1 == c) then JRBucket.write buckets c b
  else (c, b) :: buckets

/-- Lookup or creation of `JRBucket::FindOrCreate`: the entry and the map
after the call. -/
def JRBucket.FindOrCreate (buckets : List (String × JRBucket)) (CurTime : Int)
    (name : String) : (String × JRBucket) × List (String × JRBucket) :=
  let c := lower name
  match JRBucket.Find buckets c with
  | some entry => (entry, buckets)
  | none =>
    let b : JRBucket := { tokens := -1, last_join_time := CurTime, last_warn_time := 0 }
    ((c, b), JRBucket.insert buckets c b)

/-! ## ModuleJoinRate::OnJoinChannel -/

/-- Lines 248-255: seeding of an uninitialised bucket, refill and clamp; the
value of `bucket->tokens` before the final `if`. -/
def refill (cn : JRConfig) (b : JRBucket) (CurTime : Int) : Int :=
  let tokens := if b.tokens = -1 then cn.rate else b.tokens
  let elapsed := CurTime - b.last_join_time
  let tokens := wrap32 (tokens + (elapsed * cn.rate).tdiv cn.time)
  if tokens > cn.rate then cn.rate else tokens

/-- Lines 248-265 on one bucket: the bucket after the call and the branch
taken. -/
def on_join (cn : JRConfig) (b : JRBucket) (CurTime : Int) : JRBucket × Decision :=
  let tokens := refill cn b CurTime
  if tokens > 0 then
    ({ tokens := tokens - 1, last_join_time := CurTime, last_warn_time := b.last_warn_time },
      .Admit)
  else if CurTime - b.last_warn_time ≥ 30 then
    ({ tokens := tokens, last_join_time := CurTime, last_warn_time := CurTime }, .Warn)
  else
    ({ tokens := tokens, last_join_time := CurTime, last_warn_time := b.last_warn_time },
      .WarnSuppressedByPolicy)

/-- Lines 239-244: the policy the join is measured against, the override of
the channel or else what `default_config` points to. -/
def resolve (s : State) (name : String) : Except Fault JRConfig :=
  match JRConfig.Find s.configs name with
  | some cn => .ok cn
  | none => deref s.configs s.default_config

/-- Handler `ModuleJoinRate::OnJoinChannel`. -/
def OnJoinChannel (s : State) (CurTime : Int) (ev : JoinEvent) :
    Except Fault (State × Decision) :=
  match ev.c with
  | none => .ok (s, .Ignored)
  | some name =>
    if ev.Me = some false then .ok (s, .Ignored)
    else if ev.ulined || !ev.server_synced then .ok (s, .Ignored)
    else
      match resolve s name with
      | .error f => .error f
      | .ok cn =>
        if cn.rate < 0 ∨ cn.time < 0 then .ok (s, .AdmitSilently)
        else
          let found := JRBucket.FindOrCreate s.buckets CurTime name
          if cn.time = 0 then .error .div_by_zero
          else
            let r := on_join cn found.1.2 CurTime
            .ok ({ s with buckets := JRBucket.write found.2 found.1.1 r.1 }, r.2)

/-- A join of channel `name` that passes the three guards. -/
def arrival (name : String) : JoinEvent :=
  { c := some name, Me := some true, ulined := false, server_synced := true }

/-! ## CommandOSJoinRate -/

/-- Reply of `CommandOSJoinRate::GetRate`. -/
def GetRate (s : State) (params : List String) : Except Fault (State × Reply) :=
  let p1 := params.getD 1 ""
  match JRConfig.Find s.configs p1 with
  | none =>
    match deref s.configs s.default_config with
    | .error f => .error f
    | .ok d => .ok (s, .threshold_default p1 d.rate d.time)
  | some jc => .ok (s, .threshold p1 jc.rate jc.time)

/-- The bucket after `bucket->tokens = -1`. -/
def reset_tokens (b : JRBucket) : JRBucket := { b with tokens := -1 }

/-- Statement `if (bucket) bucket->tokens = -1;`. -/
def invalidate (buckets : List (String × JRBucket)) :
    Option (String × JRBucket) → List (String × JRBucket)
  | none => buckets
  | some entry => JRBucket.write buckets entry.1 (reset_tokens entry.2)

/-- Mutation `CommandOSJoinRate::SetRate`; `convertTo` is `convertTo<int>`,
`none` standing for `ConvertException`. -/
def SetRate (convertTo : String → Option Int) (s : State) (params : List String) :
    State × Reply :=
  let p1 := params.getD 1 ""
  let p2 := params.getD 2 ""
  let jc := JRConfig.Find s.configs p1
  let bucket := JRBucket.Find s.buckets p1
  if equals_ci p2 "DEFAULT" then
    let configs := match jc with
      | some jc => JRConfig.destroy s.configs jc.addr
      | none => s.configs
    ({ s with configs := configs, buckets := invalidate s.buckets bucket },
      .returned_to_default p1)
  else if params.length < 4 then (s, .provide_rate_and_time)
  else
    match convertTo p2, convertTo (params.getD 3 "") with
    | some rate, some time =>
      let configs := match jc with
        | some jc => JRConfig.assign s.configs jc.addr p1 rate time
        | none =>
          s.configs ++ [{ addr := fresh_addr s.configs s.default_config,
                          chname := p1, rate := rate, time := time }]
      ({ s with configs := configs, buckets := invalidate s.buckets bucket },
        .now_set p1 rate time)
    | _, _ => (s, .invalid_value)

/-- Dispatch of `CommandOSJoinRate::Execute`. -/
def Execute (convertTo : String → Option Int) (s : State) (params : List String) :
    Except Fault (State × Reply) :=
  if params.isEmpty then .ok (s, .usage_error)
  else if equals_ci (params.getD 0 "") "GET" && decide (params.length > 1) then
    GetRate s params
  else if equals_ci (params.getD 0 "") "SET" && decide (params.length > 2) then
    .ok (SetRate convertTo s params)
  else .ok (s, .usage_error)

/-! ## ModuleJoinRate: initialisation -/

/-- Method `ModuleJoinRate::InitializeDefaultConfig`. -/
def InitializeDefaultConfig (s : State) : State :=
  match JRConfig.Find s.configs "DEFAULT" with
  | some d => { s with default_config := some d.addr, ready := true }
  | none =>
    let a := fresh_addr s.configs s.default_config
    { s with configs := s.configs ++ [{ addr := a, chname := "DEFAULT", rate := 5, time := 5 }],
             default_config := some a, ready := true }

/-- Constructor of `ModuleJoinRate`, run on the objects the database has
loaded so far; `Me` is as in `JoinEvent`. -/
def ModuleJoinRate (configs : List JRConfig) (Me : Option Bool) : State :=
  let s : State := { configs := configs, default_config := none, buckets := [], ready := false }
  if Me = some true && !s.ready then InitializeDefaultConfig s else s

/-- Hook `ModuleJoinRate::OnPostInit`. -/
def OnPostInit (s : State) : State :=
  if s.ready then s else InitializeDefaultConfig s

/-! ## Runs -/

/-- What the host can call on the module. -/
inductive Event where
  | join (CurTime : Int) (ev : JoinEvent)
  | command (params : List String)
  | post_init
  deriving DecidableEq, Repr

/-- One call. -/
def step (convertTo : String → Option Int) (s : State) : Event → Except Fault State
  | .join CurTime ev => (OnJoinChannel s CurTime ev).map (fun r => r.1)
  | .command params => (Execute convertTo s params).map (fun r => r.1)
  | .post_init => .ok (OnPostInit s)

/-- A sequence of calls, stopping at the first fault. -/
def run (convertTo : String → Option Int) (s : State) : List Event → Except Fault State
  | [] => .ok s
  | e :: es =>
    match step convertTo s e with
    | .error f => .error f
    | .ok s1 => run convertTo s1 es

/-- Joins of one channel at the given times, each passing the guards: the
final state and, per join, the decision and the bucket's tokens after it. -/
def arrivals (s : State) (name : String) :
    List Int → Except Fault (State × List (Decision × Option Int))
  | [] => .ok (s, [])
  | t :: ts =>
    match OnJoinChannel s t (arrival name) with
    | .error f => .error f
    | .ok (s1, d) =>
      match arrivals s1 name ts with
      | .error f => .error f
      | .ok (s2, ds) =>
        .ok (s2, (d, (JRBucket.Find s1.buckets name).map (fun entry => entry.2.tokens)) :: ds)

/-! ## Predicates and observers used in the statements -/

/-- The bucket a join of `name` at `CurTime` works on: the stored one, or the
one the constructor `JRBucket::JRBucket` makes. -/
def bucket_of (s : State) (name : String) (CurTime : Int) : JRBucket :=
  match JRBucket.Find s.buckets name with
  | some entry => entry.2
  | none => { tokens := -1, last_join_time := CurTime, last_warn_time := 0 }

/-- The state after a join of `name` that is counted against the policy `cn`:
the bucket map after `FindOrCreate`, with the outcome of `on_join` written to
the channel's entry. -/
def joined (s : State) (name : String) (cn : JRConfig) (CurTime : Int) : State :=
  { s with buckets := (JRBucket.write (JRBucket.FindOrCreate s.buckets CurTime name).2
      (lower name) (on_join cn (bucket_of s name CurTime) CurTime).1) }

/-- The channel has a bucket whose last warning is not before `t1`. -/
def warned_since (t1 : Int) (name : String) (s : State) : Prop :=
  ∃ entry, JRBucket.Find s.buckets name = some entry ∧ t1 ≤ entry.2.last_warn_time

/-- Joins of one channel seen from its bucket alone: `on_join` applied at each
time in turn, starting from the stored bucket if there is one and else from the
bucket the first join creates; per join, the decision and the tokens left. -/
def bucket_trace (cn : JRConfig) : Option JRBucket → List Int → List (Decision × Option Int)
  | _, [] => []
  | ob, t :: ts =>
    let r := on_join cn (ob.getD { tokens := -1, last_join_time := t, last_warn_time := 0 }) t
    (r.2, some r.1.tokens) :: bucket_trace cn (some r.1) ts

/-- The state `InitializeDefaultConfig` establishes: the flag is set and
`default_config` points to the stored policy named `DEFAULT`. -/
def Ready (s : State) : Prop :=
  s.ready = true ∧
    ∃ d, JRConfig.Find s.configs "DEFAULT" = some d ∧ deref s.configs s.default_config = .ok d

/-- Live objects have distinct addresses. -/
def distinct_addrs (s : State) : Prop := (s.configs.map (fun config => config.addr)).Nodup

instance (s : State) : Decidable (distinct_addrs s) :=
  inferInstanceAs (Decidable (List.Nodup _))

/-- At most one stored policy per name, names compared ignoring case. -/
def one_per_key (s : State) : Prop :=
  s.configs.Pairwise (fun a b => equals_ci a.chname b.chname = false)

instance (s : State) : Decidable (one_per_key s) :=
  inferInstanceAs (Decidable (List.Pairwise _ _))

/-- The admin inputs that are turned down, as the interface lists them: no
parameters, an unknown subcommand, `GET` without a key, `SET` with fewer than
three parameters, and a `SET` whose third parameter is not `DEFAULT` and whose
window is missing or whose rate or window does not convert. -/
def rejected (convertTo : String → Option Int) (params : List String) : Bool :=
  let p0 := params.getD 0 ""
  let p2 := params.getD 2 ""
  let p3 := params.getD 3 ""
  params.isEmpty
    || (!equals_ci p0 "GET" && !equals_ci p0 "SET")
    || (equals_ci p0 "GET" && decide (params.length ≤ 1))
    || (equals_ci p0 "SET" && decide (params.length < 3))
    || (equals_ci p0 "SET" && decide (3 ≤ params.length) && !equals_ci p2 "DEFAULT"
          && (decide (params.length < 4) || (convertTo p2).isNone || (convertTo p3).isNone))

/-- The three replies that turn a request down. -/
def Reply.is_rejection : Reply → Bool
  | .usage_error => true
  | .provide_rate_and_time => true
  | .invalid_value => true
  | _ => false

/-- Number of stored policies whose name equals `key` ignoring case. -/
def count_key (configs : List JRConfig) (key : String) : Nat :=
  configs.countP (fun config => equals_ci config.chname key)

/-- The policy store after the `SET key DEFAULT` branch of `SetRate`. -/
def configs_after_reset (s : State) (key : String) : List JRConfig :=
  match JRConfig.Find s.configs key with
  | some jc => JRConfig.destroy s.configs jc.addr
  | none => s.configs

/-- The policy store after the `SET key rate time` branch of `SetRate`. -/
def configs_after_set (s : State) (key : String) (rate time : Int) : List JRConfig :=
  match JRConfig.Find s.configs key with
  | some jc => JRConfig.assign s.configs jc.addr key rate time
  | none => s.configs ++ [{ addr := fresh_addr s.configs s.default_config,
                            chname := key, rate := rate, time := time }]

/-- The event is a `SET` command whose key is `DEFAULT`. -/
def sets_default : Event → Bool
  | .command params => equals_ci (params.getD 0 "") "SET" && equals_ci (params.getD 1 "") "DEFAULT"
  | _ => false

/-- Every stored bucket is the one found under its own key. -/
def keyed (s : State) : Prop :=
  ∀ entry ∈ s.buckets, JRBucket.Find s.buckets entry.1 = some entry

/-- Every bucket that can be looked up and is not uninitialised has at most as
many tokens as the rate of the policy in force for its name. -/
def bucket_inv (s : State) : Prop :=
  ∀ name entry, JRBucket.Find s.buckets name = some entry → entry.2.tokens ≠ -1 →
    ∃ cn, resolve s name = .ok cn ∧ entry.2.tokens ≤ cn.rate

/-- The arrival step in the spec's words (§4.2, steps 4 to 9), on unbounded
integers: seed an uninitialised bucket with the rate, refill by
`floor(elapsed * rate / window)`, clamp to the rate, then admit and decrement
when tokens are left and else warn or suppress by the 30-second cooldown; the
last arrival time is set to `now` on every path. -/
def spec_on_arrival (rate window : Int) (b : JRBucket) (now : Int) : JRBucket × Decision :=
  let seed := if b.tokens = -1 then rate else b.tokens
  let m := min rate (seed + ((now - b.last_join_time) * rate) / window)
  if m > 0 then
    ({ tokens := m - 1, last_join_time := now, last_warn_time := b.last_warn_time }, .Admit)
  else if now - b.last_warn_time ≥ 30 then
    ({ tokens := m, last_join_time := now, last_warn_time := now }, .Warn)
  else
    ({ tokens := m, last_join_time := now, last_warn_time := b.last_warn_time },
      .WarnSuppressedByPolicy)

/-- Number of joins of a run that were decided `Admit`. -/
def admitted (ds : List (Decision × Option Int)) : Nat :=
  ds.countP (fun p => decide (p.1 = .Admit))

/-- The join, if it is counted (it passes the guards and the policy in force is
not disabled), comes at a time not before the last join of its channel, and
the seed plus the refill `floor(elapsed * rate / window)` is below `2^31`. -/
def join_fits (s : State) (CurTime : Int) (ev : JoinEvent) : Bool :=
  match ev.c with
  | none => true
  | some name =>
    if ev.Me = some false then true
    else if ev.ulined || !ev.server_synced then true
    else
      match resolve s name with
      | .error _ => true
      | .ok cn =>
        if cn.rate < 0 ∨ cn.time < 0 then true
        else
          let b := bucket_of s name CurTime
          decide (b.last_join_time ≤ CurTime)
            && decide ((if b.tokens = -1 then cn.rate else b.tokens)
                + ((CurTime - b.last_join_time) * cn.rate) / cn.time < 2147483648)

/-- Every join of the run fits (`join_fits`) in the state it arrives in. -/
def fitting (convertTo : String → Option Int) : State → List Event → Bool
  | _, [] => true
  | s, e :: es =>
    (match e with
      | .join CurTime ev => join_fits s CurTime ev
      | _ => true)
    && (match step convertTo s e with
      | .ok s1 => fitting convertTo s1 es
      | .error _ => true)

/-- No bucket that can be looked up has tokens below -1. -/
def tokens_ge (s : State) : Prop :=
  ∀ name entry, JRBucket.Find s.buckets name = some entry → -1 ≤ entry.2.tokens

/-! ## Concrete states used as test inputs -/

/-- The state right after start-up on an empty database: only the built-in
`DEFAULT` policy, 5 joins in 5 seconds. -/
def fresh_state : State := ModuleJoinRate [] (some true)

/-- The `DEFAULT` policy of `fresh_state`. -/
def builtin_default : JRConfig := { addr := 1, chname := "DEFAULT", rate := 5, time := 5 }

/-- The state `fresh_state` with one bucket for `#chan`. -/
def with_bucket (b : JRBucket) : State :=
  { fresh_state with buckets := [("#chan", b)] }

/-- A `convertTo<int>` that knows a few numerals. -/
def convert_sample (s : String) : Option Int :=
  if s = "0" then some 0
  else if s = "1" then some 1
  else if s = "3" then some 3
  else if s = "5" then some 5
  else if s = "10" then some 10
  else if s = "-1" then some (-1)
  else if s = "1073741824" then some 1073741824
  else none

/-- A state with the override `#chan` 10/5 and buckets for `#other`
(uninitialised) and `#chan` (9 tokens). -/
def two_buckets : State :=
  { configs := [{ addr := 1, chname := "DEFAULT", rate := 5, time := 5 },
                { addr := 2, chname := "#chan", rate := 10, time := 5 }],
    default_config := some 1,
    buckets := [("#other", { tokens := -1, last_join_time := 101, last_warn_time := 0 }),
                ("#chan", { tokens := 9, last_join_time := 101, last_warn_time := 0 })],
    ready := true }

/-- A state with the override `#chan` 2147483647/1 and a bucket of 5 tokens
for `#chan`, last used at time 100. -/
def huge_rate : State :=
  { configs := [{ addr := 1, chname := "DEFAULT", rate := 5, time := 5 },
                { addr := 2, chname := "#chan", rate := 2147483647, time := 1 }],
    default_config := some 1,
    buckets := [("#chan", { tokens := 5, last_join_time := 100, last_warn_time := 100 })],
    ready := true }

/-- The state after `SET #chan 1073741824 1` and a join of `#chan` at time 100
in the start-up state. -/
def power_rate : State :=
  { configs := [{ addr := 1, chname := "DEFAULT", rate := 5, time := 5 },
                { addr := 2, chname := "#chan", rate := 1073741824, time := 1 }],
    default_config := some 1,
    buckets := [("#chan", { tokens := 1073741823, last_join_time := 100,
                            last_warn_time := 0 })],
    ready := true }

/-! ## Case mapping -/

theorem toNat_ofNat_small (n : Nat) (h : n < 55296) : (Char.ofNat n).toNat = n := by
  have hv : n.isValidChar := Or.inl h
  unfold Char.ofNat
  rw [dif_pos hv]
  rfl

theorem toLower_toLower (c : Char) : c.toLower.toLower = c.toLower := by
  by_cases h : c.toNat ≥ 65 ∧ c.toNat ≤ 90
  · have e : c.toLower = Char.ofNat (c.toNat + 32) := by
      simp only [Char.toLower]; rw [if_pos h]
    have h1 : (Char.ofNat (c.toNat + 32)).toNat = c.toNat + 32 :=
      toNat_ofNat_small _ (by omega)
    rw [e]
    simp only [Char.toLower]
    rw [if_neg]
    rw [h1]; omega
  · have e : c.toLower = c := by
      simp only [Char.toLower]; rw [if_neg h]
    rw [e, e]

theorem lower_lower (s : String) : lower (lower s) = lower s := by
  simp only [lower, List.map_map]
  congr 1
  apply List.map_congr_left
  intro c _
  exact toLower_toLower c

theorem equals_ci_iff (a b : String) : equals_ci a b = true ↔ lower a = lower b := by
  simp [equals_ci]

theorem equals_ci_refl (a : String) : equals_ci a a = true := by
  simp [equals_ci]

theorem equals_ci_congr {a b : String} (h : equals_ci a b = true) (c : String) :
    equals_ci c a = equals_ci c b := by
  rw [equals_ci_iff] at h
  simp [equals_ci, h]

/-! ## The bucket map -/

theorem find_map_key (bs : List (String × JRBucket)) (k : String)
    (f : String × JRBucket → String × JRBucket) (hf : ∀ x, (f x).1 = x.1) :
    (bs.map f).find? (fun x => x.1 == k) = (bs.find? (fun x => x.1 == k)).map f := by
  induction bs with
  | nil => rfl
  | cons x xs ih =>
    simp only [List.map_cons, List.find?_cons, hf]
    cases x.1 == k
    · exact ih
    · rfl

theorem write_key (k : String) (b : JRBucket) (x : String × JRBucket) :
    (if x.1 == k then (x.1, b) else x).1 = x.1 := by
  split <;> rfl

theorem find_write_self (bs : List (String × JRBucket)) (k : String) (b : JRBucket)
    (e : String × JRBucket) (h : bs.find? (fun x => x.1 == k) = some e) :
    (JRBucket.write bs k b).find? (fun x => x.1 == k) = some (k, b) := by
  have hk : e.1 = k := by simpa using List.find?_some h
  unfold JRBucket.write
  rw [find_map_key bs k _ (write_key k b), h]
  simp [hk]

theorem find_write_ne (bs : List (String × JRBucket)) (k k2 : String) (b : JRBucket)
    (h : k2 ≠ k) :
    (JRBucket.write bs k b).find? (fun x => x.1 == k2) = bs.find? (fun x => x.1 == k2) := by
  unfold JRBucket.write
  rw [find_map_key bs k2 _ (write_key k b)]
  cases hf : bs.find? (fun x => x.1 == k2) with
  | none => rfl
  | some e =>
    have hk : e.1 = k2 := by simpa using List.find?_some hf
    have hne : ¬ e.1 = k := by rw [hk]; exact h
    simp [hne]

theorem find_insert_self (bs : List (String × JRBucket)) (k : String) (b : JRBucket) :
    (JRBucket.insert bs k b).find? (fun x => x.1 == k) = some (k, b) := by
  unfold JRBucket.insert
  split
  · rename_i h
    cases hf : bs.find? (fun x => x.1 == k) with
    | none =>
      rw [List.find?_eq_none] at hf
      rw [List.any_eq_true] at h
      obtain ⟨x, hx, hxk⟩ := h
      exact absurd hxk (hf x hx)
    | some e => exact find_write_self bs k b e hf
  · simp [List.find?]

theorem find_insert_ne (bs : List (String × JRBucket)) (k k2 : String) (b : JRBucket)
    (h : k2 ≠ k) :
    (JRBucket.insert bs k b).find? (fun x => x.1 == k2) = bs.find? (fun x => x.1 == k2) := by
  unfold JRBucket.insert
  split
  · exact find_write_ne bs k k2 b h
  · have hk : (k == k2) = false := by simpa using (Ne.symm h)
    simp [List.find?, hk]

theorem Find_key (bs : List (String × JRBucket)) (c : String) (e : String × JRBucket)
    (h : JRBucket.Find bs c = some e) : e.1 = lower c := by
  unfold JRBucket.Find at h
  have := List.find?_some h
  simpa using this

theorem FindOrCreate_entry (bs : List (String × JRBucket)) (t : Int) (name : String) :
    (JRBucket.FindOrCreate bs t name).1
      = (lower name, bucket_of { configs := [], default_config := none, buckets := bs,
                                 ready := false } name t) := by
  unfold JRBucket.FindOrCreate bucket_of
  have hF : JRBucket.Find bs (lower name) = JRBucket.Find bs name := by
    simp only [JRBucket.Find, lower_lower]
  simp only [hF]
  cases h : JRBucket.Find bs name with
  | none => rfl
  | some e =>
    have := Find_key bs name e h
    simp only []
    rw [← this]

theorem FindOrCreate_find (bs : List (String × JRBucket)) (t : Int) (name : String) :
    ∃ e, (JRBucket.FindOrCreate bs t name).2.find? (fun x => x.1 == lower name) = some e := by
  unfold JRBucket.FindOrCreate
  have hF : JRBucket.Find bs (lower name) = JRBucket.Find bs name := by
    simp only [JRBucket.Find, lower_lower]
  simp only [hF]
  cases h : JRBucket.Find bs name with
  | none => exact ⟨_, find_insert_self bs (lower name) _⟩
  | some e => exact ⟨e, h⟩

theorem FindOrCreate_find_ne (bs : List (String × JRBucket)) (t : Int) (name k : String)
    (hk : k ≠ lower name) :
    (JRBucket.FindOrCreate bs t name).2.find? (fun x => x.1 == k)
      = bs.find? (fun x => x.1 == k) := by
  simp only [JRBucket.FindOrCreate]
  cases h : JRBucket.Find bs (lower name) with
  | none => exact find_insert_ne bs (lower name) k _ hk
  | some e => rfl

theorem bucket_of_buckets (s : State) (name : String) (t : Int) :
    bucket_of { configs := [], default_config := none, buckets := s.buckets,
                ready := false } name t = bucket_of s name t := rfl

theorem Find_lower (bs : List (String × JRBucket)) (k k2 : String) (h : lower k = lower k2) :
    JRBucket.Find bs k = JRBucket.Find bs k2 := by
  simp only [JRBucket.Find, h]

theorem joined_find (s : State) (name : String) (cn : JRConfig) (t : Int) :
    JRBucket.Find (joined s name cn t).buckets name
      = some (lower name, (on_join cn (bucket_of s name t) t).1) := by
  obtain ⟨e, he⟩ := FindOrCreate_find s.buckets t name
  simp only [JRBucket.Find, joined]
  exact find_write_self _ _ _ e he

theorem joined_find_ne (s : State) (name : String) (cn : JRConfig) (t : Int) (k : String)
    (hk : lower k ≠ lower name) :
    JRBucket.Find (joined s name cn t).buckets k = JRBucket.Find s.buckets k := by
  simp only [JRBucket.Find, joined]
  rw [find_write_ne _ _ _ _ hk, FindOrCreate_find_ne _ _ _ _ hk]

/-- What a guard-passing join does when the policy in force is not disabled
and its window is not zero. -/
theorem OnJoinChannel_counted (s : State) (t : Int) (name : String) (cn : JRConfig)
    (hres : resolve s name = .ok cn) (h1 : ¬ (cn.rate < 0 ∨ cn.time < 0))
    (h2 : cn.time ≠ 0) :
    OnJoinChannel s t (arrival name)
      = .ok (joined s name cn t, (on_join cn (bucket_of s name t) t).2) := by
  simp only [OnJoinChannel, arrival, hres, if_neg h1, if_neg h2]
  simp [FindOrCreate_entry, bucket_of_buckets, joined]

/-- The two ways `OnJoinChannel` returns. -/
theorem OnJoinChannel_cases (s : State) (t : Int) (ev : JoinEvent) (s1 : State) (d : Decision)
    (h : OnJoinChannel s t ev = .ok (s1, d)) :
    (s1 = s ∧ (d = .Ignored ∨ d = .AdmitSilently)) ∨
    (∃ name cn, ev.c = some name ∧ resolve s name = .ok cn ∧ ¬ (cn.rate < 0 ∨ cn.time < 0)
      ∧ cn.time ≠ 0 ∧ s1 = joined s name cn t
      ∧ d = (on_join cn (bucket_of s name t) t).2) := by
  unfold OnJoinChannel at h
  split at h
  · simp only [Except.ok.injEq, Prod.mk.injEq] at h
    exact Or.inl ⟨h.1.symm, Or.inl h.2.symm⟩
  · rename_i name hname
    split at h
    · simp only [Except.ok.injEq, Prod.mk.injEq] at h
      exact Or.inl ⟨h.1.symm, Or.inl h.2.symm⟩
    · split at h
      · simp only [Except.ok.injEq, Prod.mk.injEq] at h
        exact Or.inl ⟨h.1.symm, Or.inl h.2.symm⟩
      · split at h
        · exact absurd h (by simp)
        · rename_i cn hres
          split at h
          · simp only [Except.ok.injEq, Prod.mk.injEq] at h
            exact Or.inl ⟨h.1.symm, Or.inr h.2.symm⟩
          · rename_i hdis
            split at h
            · exact absurd h (by simp)
            · rename_i hz
              simp only [Except.ok.injEq, Prod.mk.injEq, FindOrCreate_entry,
                bucket_of_buckets] at h
              exact Or.inr ⟨name, cn, hname, hres, hdis, hz, h.1.symm, h.2.symm⟩

theorem refill_le_rate (cn : JRConfig) (b : JRBucket) (t : Int) : refill cn b t ≤ cn.rate := by
  unfold refill
  simp only []
  split <;> omega

theorem on_join_tokens_le (cn : JRConfig) (b : JRBucket) (t : Int) :
    (on_join cn b t).1.tokens ≤ cn.rate := by
  have := refill_le_rate cn b t
  unfold on_join
  simp only []
  split
  · simp only []; omega
  · split <;> exact this

theorem resolve_congr (s s1 : State) (name : String) (hc : s1.configs = s.configs)
    (hd : s1.default_config = s.default_config) : resolve s1 name = resolve s name := by
  simp only [resolve, hc, hd]

/-! ## Invalidation by the admin command -/

theorem invalidate_find_same (bs : List (String × JRBucket)) (p1 k : String)
    (e : String × JRBucket) (hk : lower k = lower p1) (h : JRBucket.Find bs k = some e) :
    JRBucket.Find (invalidate bs (JRBucket.Find bs p1)) k
      = some (e.1, reset_tokens e.2) := by
  have h1 : JRBucket.Find bs p1 = some e := by rw [← Find_lower bs k p1 hk, h]
  have hkey := Find_key bs k e h
  rw [h1]
  simp only [invalidate, JRBucket.Find, hkey]
  exact find_write_self bs (lower k) _ e h

theorem invalidate_find_ne (bs : List (String × JRBucket)) (p1 k : String)
    (hk : lower k ≠ lower p1) :
    JRBucket.Find (invalidate bs (JRBucket.Find bs p1)) k = JRBucket.Find bs k := by
  cases h1 : JRBucket.Find bs p1 with
  | none => rfl
  | some e =>
    have hkey := Find_key bs p1 e h1
    simp only [invalidate, JRBucket.Find, hkey]
    exact find_write_ne bs (lower p1) (lower k) _ hk

theorem SetRate_buckets (cv : String → Option Int) (s : State) (params : List String) :
    (SetRate cv s params).1.buckets = s.buckets ∨
    (SetRate cv s params).1.buckets
      = invalidate s.buckets (JRBucket.Find s.buckets (params.getD 1 "")) := by
  unfold SetRate
  simp only []
  split
  · exact Or.inr rfl
  · split
    · exact Or.inl rfl
    · split
      · exact Or.inr rfl
      · exact Or.inl rfl

theorem Execute_cases (cv : String → Option Int) (s s1 : State) (params : List String)
    (r : Reply) (h : Execute cv s params = .ok (s1, r)) :
    s1 = s ∨ s1 = (SetRate cv s params).1 := by
  unfold Execute at h
  split at h
  · simp only [Except.ok.injEq, Prod.mk.injEq] at h
    exact Or.inl h.1.symm
  · split at h
    · unfold GetRate at h
      simp only [] at h
      split at h
      · split at h
        · exact absurd h (by simp)
        · simp only [Except.ok.injEq, Prod.mk.injEq] at h
          exact Or.inl h.1.symm
      · simp only [Except.ok.injEq, Prod.mk.injEq] at h
        exact Or.inl h.1.symm
    · split at h
      · simp only [Except.ok.injEq] at h
        exact Or.inr (by rw [h])
      · simp only [Except.ok.injEq, Prod.mk.injEq] at h
        exact Or.inl h.1.symm

theorem OnPostInit_buckets (s : State) : (OnPostInit s).buckets = s.buckets := by
  unfold OnPostInit InitializeDefaultConfig
  split
  · rfl
  · split <;> rfl

/-! ## The warning time of a bucket only moves forward -/

theorem on_join_last_warn (cn : JRConfig) (b : JRBucket) (t t1 : Int)
    (h : t1 ≤ b.last_warn_time) : t1 ≤ (on_join cn b t).1.last_warn_time := by
  unfold on_join
  simp only []
  split
  · exact h
  · split
    · simp only []; omega
    · exact h

theorem warned_since_invalidate (t1 : Int) (name p1 : String) (s : State)
    (bs : List (String × JRBucket))
    (hbs : bs = s.buckets ∨ bs = invalidate s.buckets (JRBucket.Find s.buckets p1))
    (h : warned_since t1 name s) :
    ∃ entry, JRBucket.Find bs name = some entry ∧ t1 ≤ entry.2.last_warn_time := by
  obtain ⟨e, he, hle⟩ := h
  rcases hbs with rfl | rfl
  · exact ⟨e, he, hle⟩
  · by_cases hk : lower name = lower p1
    · exact ⟨_, invalidate_find_same s.buckets p1 name e hk he, hle⟩
    · exact ⟨e, by rw [invalidate_find_ne s.buckets p1 name hk, he], hle⟩

theorem warned_since_step (cv : String → Option Int) (t1 : Int) (name : String)
    (s s1 : State) (e : Event) (hstep : step cv s e = .ok s1) (h : warned_since t1 name s) :
    warned_since t1 name s1 := by
  cases e with
  | join t ev =>
    simp only [step] at hstep
    cases hj : OnJoinChannel s t ev with
    | error f => rw [hj] at hstep; exact absurd hstep (by simp [Except.map])
    | ok r =>
      rw [hj] at hstep
      simp only [Except.map, Except.ok.injEq] at hstep
      subst hstep
      rcases OnJoinChannel_cases s t ev r.1 r.2 hj with ⟨hs, _⟩ | ⟨n2, cn, _, _, _, _, hs, _⟩
      · rw [hs]; exact h
      · rw [hs]
        obtain ⟨e0, he0, hle⟩ := h
        by_cases hk : lower name = lower n2
        · refine ⟨(lower n2, (on_join cn (bucket_of s n2 t) t).1), ?_, ?_⟩
          · rw [Find_lower _ name n2 hk]; exact joined_find s n2 cn t
          · apply on_join_last_warn
            have : bucket_of s n2 t = e0.2 := by
              unfold bucket_of
              rw [← Find_lower _ name n2 hk, he0]
            rw [this]; exact hle
        · exact ⟨e0, by rw [joined_find_ne s n2 cn t name hk, he0], hle⟩
  | command params =>
    simp only [step] at hstep
    cases hx : Execute cv s params with
    | error f => rw [hx] at hstep; exact absurd hstep (by simp [Except.map])
    | ok r =>
      rw [hx] at hstep
      simp only [Except.map, Except.ok.injEq] at hstep
      subst hstep
      rcases Execute_cases cv s r.1 params r.2 hx with hs | hs
      · rw [hs]; exact h
      · rw [hs]
        exact warned_since_invalidate t1 name (params.getD 1 "") s _
          (SetRate_buckets cv s params) h
  | post_init =>
    simp only [step, Except.ok.injEq] at hstep
    subst hstep
    obtain ⟨e0, he0, hle⟩ := h
    exact ⟨e0, by rw [OnPostInit_buckets, he0], hle⟩

theorem warned_since_run (cv : String → Option Int) (t1 : Int) (name : String)
    (evs : List Event) (s s1 : State) (hrun : run cv s evs = .ok s1)
    (h : warned_since t1 name s) : warned_since t1 name s1 := by
  induction evs generalizing s with
  | nil =>
    simp only [run, Except.ok.injEq] at hrun
    subst hrun; exact h
  | cons e es ih =>
    simp only [run] at hrun
    cases hs : step cv s e with
    | error f => rw [hs] at hrun; exact absurd hrun (by simp)
    | ok s2 =>
      rw [hs] at hrun
      exact ih s2 hrun (warned_since_step cv t1 name s s2 e hs h)

theorem on_join_warn (cn : JRConfig) (b : JRBucket) (t : Int)
    (h : (on_join cn b t).2 = .Warn) : (on_join cn b t).1.last_warn_time = t := by
  unfold on_join at h ⊢
  simp only [] at h ⊢
  split
  · rename_i h1; simp [h1] at h
  · rename_i h1
    split
    · rfl
    · rename_i h2; simp [h1, h2] at h

theorem on_join_cooldown (cn : JRConfig) (b : JRBucket) (t : Int)
    (h : t - b.last_warn_time < 30) :
    (on_join cn b t).2 ≠ .Warn ∧
      (refill cn b t ≤ 0 → (on_join cn b t).2 = .WarnSuppressedByPolicy) := by
  have h30 : ¬ (t - b.last_warn_time ≥ 30) := by omega
  unfold on_join
  simp only []
  constructor
  · split
    · simp
    · simp [h30]
  · intro hx
    have : ¬ (refill cn b t > 0) := by omega
    simp [this, h30]

/-! ## The policy store under `SET` -/

/-- The configs after a successful `SET key rate time`. -/
theorem SetRate_set (cv : String → Option Int) (s : State) (key p2 p3 : String) (r w : Int)
    (hnd : equals_ci p2 "DEFAULT" = false) (h2 : cv p2 = some r) (h3 : cv p3 = some w) :
    SetRate cv s ["SET", key, p2, p3]
      = ({ s with
            configs := (match JRConfig.Find s.configs key with
              | some jc => JRConfig.assign s.configs jc.addr key r w
              | none => s.configs ++ [{ addr := fresh_addr s.configs s.default_config,
                                        chname := key, rate := r, time := w }]),
            buckets := invalidate s.buckets (JRBucket.Find s.buckets key) },
          .now_set key r w) := by
  simp [SetRate, hnd, h2, h3]

theorem Execute_set (cv : String → Option Int) (s : State) (key p2 p3 : String) :
    Execute cv s ["SET", key, p2, p3] = .ok (SetRate cv s ["SET", key, p2, p3]) := by
  have h1 : equals_ci "SET" "GET" = false := by decide
  have h2 : equals_ci "SET" "SET" = true := by decide
  simp [Execute, h1, h2]

theorem Execute_get (cv : String → Option Int) (s : State) (key : String) :
    Execute cv s ["GET", key] = GetRate s ["GET", key] := by
  have h1 : equals_ci "GET" "GET" = true := by decide
  simp [Execute, h1]

theorem Find_assign (cs : List JRConfig) (key k : String) (r w : Int) (jc : JRConfig)
    (h : JRConfig.Find cs key = some jc) (hk : lower k = lower key) :
    ∃ c, JRConfig.Find (JRConfig.assign cs jc.addr key r w) k = some c
      ∧ c.chname = key ∧ c.rate = r ∧ c.time = w := by
  have hkk : equals_ci key k = true := by rw [equals_ci_iff, hk]
  induction cs with
  | nil => simp [JRConfig.Find] at h
  | cons x xs ih =>
    simp only [JRConfig.Find, List.find?_cons] at h
    by_cases ha : x.addr = jc.addr
    · refine ⟨{ x with chname := key, rate := r, time := w }, ?_, rfl, rfl, rfl⟩
      simp [JRConfig.Find, JRConfig.assign, List.find?_cons, ha, hkk]
    · cases hx : equals_ci x.chname key with
      | true =>
        rw [hx] at h
        simp only [Option.some.injEq] at h
        exact absurd (by rw [h]) ha
      | false =>
        rw [hx] at h
        obtain ⟨c, hc, hrest⟩ := ih h
        refine ⟨c, ?_, hrest⟩
        have hxk : equals_ci x.chname k = false := by
          rw [← hx]; exact equals_ci_congr (by rw [equals_ci_iff, hk]) x.chname
        simp only [JRConfig.Find, JRConfig.assign, List.map_cons, if_neg ha, List.find?_cons,
          hxk]
        exact hc

theorem Find_append_new (cs : List JRConfig) (key k : String) (c : JRConfig)
    (h : JRConfig.Find cs key = none) (hk : lower k = lower key) (hc : c.chname = key) :
    JRConfig.Find (cs ++ [c]) k = some c := by
  have hkk : equals_ci key k = true := by rw [equals_ci_iff, hk]
  have hnone : JRConfig.Find cs k = none := by
    unfold JRConfig.Find at h ⊢
    rw [List.find?_eq_none] at h ⊢
    intro x hx
    rw [equals_ci_congr (b := key) (by rw [equals_ci_iff, hk]) x.chname]
    exact h x hx
  unfold JRConfig.Find at hnone ⊢
  rw [List.find?_append, hnone]
  simp [List.find?_cons, hc, hkk]

/-- After a successful `SET key r w` the first policy matching any spelling of
`key` carries `r` and `w`. -/
theorem Find_after_set (cv : String → Option Int) (s : State) (key p2 p3 k : String)
    (r w : Int) (hnd : equals_ci p2 "DEFAULT" = false) (h2 : cv p2 = some r)
    (h3 : cv p3 = some w) (hk : lower k = lower key) :
    ∃ c, JRConfig.Find (SetRate cv s ["SET", key, p2, p3]).1.configs k = some c
      ∧ c.chname = key ∧ c.rate = r ∧ c.time = w := by
  rw [SetRate_set cv s key p2 p3 r w hnd h2 h3]
  cases hf : JRConfig.Find s.configs key with
  | none =>
    exact ⟨_, Find_append_new s.configs key k _ hf hk rfl, rfl, rfl, rfl⟩
  | some jc => exact Find_assign s.configs key k r w jc hf hk

theorem SetRate_set_buckets (cv : String → Option Int) (s : State) (key p2 p3 : String)
    (r w : Int) (hnd : equals_ci p2 "DEFAULT" = false) (h2 : cv p2 = some r)
    (h3 : cv p3 = some w) :
    (SetRate cv s ["SET", key, p2, p3]).1.buckets
      = invalidate s.buckets (JRBucket.Find s.buckets key) := by
  rw [SetRate_set cv s key p2 p3 r w hnd h2 h3]

/-! ## Refill without overflow -/

theorem wrap32_id (x : Int) (h1 : -2147483648 ≤ x) (h2 : x < 2147483648) : wrap32 x = x := by
  unfold wrap32; omega

theorem refill_seeded (cn : JRConfig) (b : JRBucket) (t : Int) (hb : b.tokens = -1)
    (hr : 0 < cn.rate) (hw : 0 < cn.time) (ht : b.last_join_time ≤ t)
    (hfit : cn.rate + ((t - b.last_join_time) * cn.rate) / cn.time < 2147483648) :
    refill cn b t = cn.rate := by
  have hq : ((t - b.last_join_time) * cn.rate).tdiv cn.time
      = ((t - b.last_join_time) * cn.rate) / cn.time :=
    Int.tdiv_eq_ediv (mul_nonneg (by omega) (by omega)) (by omega)
  have hq0 : 0 ≤ ((t - b.last_join_time) * cn.rate) / cn.time :=
    Int.ediv_nonneg (mul_nonneg (by omega) (by omega)) (by omega)
  unfold refill
  simp only [hb, if_true, hq]
  generalize ((t - b.last_join_time) * cn.rate) / cn.time = q at hfit hq0
  rw [wrap32_id _ (by omega) hfit]
  split <;> omega

/-! ## Runs of joins of one channel -/

/-- Under a policy that is not disabled and has a non-zero window, the joins of
a channel all complete and are decided by the channel's bucket alone. -/
theorem arrivals_trace (s : State) (name : String) (cn : JRConfig) (ts : List Int)
    (hres : resolve s name = .ok cn) (h1 : ¬ (cn.rate < 0 ∨ cn.time < 0)) (h2 : cn.time ≠ 0) :
    Except.map (fun r => r.2) (arrivals s name ts)
      = .ok (bucket_trace cn ((JRBucket.Find s.buckets name).map (fun e => e.2)) ts) := by
  induction ts generalizing s with
  | nil => rfl
  | cons t ts ih =>
    have hstep := OnJoinChannel_counted s t name cn hres h1 h2
    have hres1 : resolve (joined s name cn t) name = .ok cn := by
      rw [resolve_congr s (joined s name cn t) name rfl rfl, hres]
    have ih1 := ih (joined s name cn t) hres1
    have hb : (Option.map (fun e => e.2) (JRBucket.Find s.buckets name)).getD
        { tokens := -1, last_join_time := t, last_warn_time := 0 } = bucket_of s name t := by
      unfold bucket_of
      cases JRBucket.Find s.buckets name <;> rfl
    simp only [arrivals, hstep, bucket_trace, hb]
    cases hrun : arrivals (joined s name cn t) name ts with
    | error f => rw [hrun] at ih1; simp [Except.map] at ih1
    | ok r =>
      rw [hrun] at ih1
      simp only [Except.map, Except.ok.injEq] at ih1
      simp only [Except.map, joined_find, Option.map_some', ih1]

theorem trace_5_5 (cn : JRConfig) (t0 : Int) (hrate : cn.rate = 5) (htime : cn.time = 5)
    (h : 30 ≤ t0) :
    bucket_trace cn none [t0, t0, t0, t0, t0, t0, t0 + 1, t0 + 1, t0 + 1]
      = [(.Admit, some 4), (.Admit, some 3), (.Admit, some 2), (.Admit, some 1),
         (.Admit, some 0), (.Warn, some 0), (.Admit, some 0),
         (.WarnSuppressedByPolicy, some 0), (.WarnSuppressedByPolicy, some 0)] := by
  simp [bucket_trace, on_join, refill, wrap32, hrate, htime, h]

/-! ## Policies of other channels under `SET` -/

theorem equals_ci_comm (a b : String) : equals_ci a b = equals_ci b a := by
  rw [Bool.eq_iff_iff, equals_ci_iff, equals_ci_iff]
  exact eq_comm

theorem equals_ci_false_of (a b k : String) (hab : equals_ci a b = true)
    (hk : equals_ci k b = false) : equals_ci a k = false := by
  rw [equals_ci_comm a k, equals_ci_congr hab k]; exact hk

theorem Find_assign_other (cs : List JRConfig) (a : Nat) (key k : String) (r w : Int)
    (hall : ∀ x ∈ cs, x.addr = a → equals_ci x.chname key = true)
    (hk : equals_ci k key = false) :
    JRConfig.Find (JRConfig.assign cs a key r w) k = JRConfig.Find cs k := by
  induction cs with
  | nil => rfl
  | cons x xs ih =>
    have ih1 := ih (fun y hy => hall y (List.mem_cons_of_mem x hy))
    simp only [JRConfig.Find, JRConfig.assign] at ih1
    by_cases ha : x.addr = a
    · have h1 : equals_ci x.chname k = false :=
        equals_ci_false_of x.chname key k (hall x (List.mem_cons_self x xs) ha) hk
      have h2 : equals_ci key k = false := by rw [equals_ci_comm]; exact hk
      simp only [JRConfig.Find, JRConfig.assign, List.map_cons, if_pos ha, List.find?_cons,
        h1, h2]
      exact ih1
    · simp only [JRConfig.Find, JRConfig.assign, List.map_cons, if_neg ha, List.find?_cons]
      cases equals_ci x.chname k
      · exact ih1
      · rfl

theorem Find_append_other (cs : List JRConfig) (c : JRConfig) (k : String)
    (hk : equals_ci c.chname k = false) :
    JRConfig.Find (cs ++ [c]) k = JRConfig.Find cs k := by
  unfold JRConfig.Find
  rw [List.find?_append]
  simp [List.find?_cons, hk]

theorem Find_mem (cs : List JRConfig) (key : String) (jc : JRConfig)
    (h : JRConfig.Find cs key = some jc) : jc ∈ cs ∧ equals_ci jc.chname key = true := by
  unfold JRConfig.Find at h
  exact ⟨List.mem_of_find?_eq_some h, by simpa using List.find?_some h⟩

theorem Find_none (cs : List JRConfig) (key : String)
    (h : ∀ c ∈ cs, equals_ci c.chname key = false) : JRConfig.Find cs key = none := by
  unfold JRConfig.Find
  rw [List.find?_eq_none]
  intro x hx
  simp [h x hx]

/-- A successful `SET key r w` leaves the first policy of every other key as it
was. -/
theorem Find_after_set_other (cv : String → Option Int) (s : State) (key p2 p3 k : String)
    (r w : Int) (hnd : equals_ci p2 "DEFAULT" = false) (h2 : cv p2 = some r)
    (h3 : cv p3 = some w) (hwf : distinct_addrs s) (hk : equals_ci k key = false) :
    JRConfig.Find (SetRate cv s ["SET", key, p2, p3]).1.configs k = JRConfig.Find s.configs k := by
  rw [SetRate_set cv s key p2 p3 r w hnd h2 h3]
  cases hf : JRConfig.Find s.configs key with
  | none =>
    exact Find_append_other s.configs _ k (by rw [equals_ci_comm]; exact hk)
  | some jc =>
    obtain ⟨hmem, hname⟩ := Find_mem s.configs key jc hf
    apply Find_assign_other s.configs jc.addr key k r w _ hk
    intro x hx hxa
    have : x = jc := List.inj_on_of_nodup_map hwf hx hmem hxa
    rw [this]; exact hname

/-! ## Distinct addresses are kept -/

theorem le_foldr_max (l : List Nat) (z a : Nat) (h : a ∈ l) : a ≤ l.foldr max z := by
  induction l with
  | nil => simp at h
  | cons x xs ih =>
    simp only [List.foldr_cons]
    rcases List.mem_cons.mp h with rfl | h
    · exact Nat.le_max_left _ _
    · exact Nat.le_trans (ih h) (Nat.le_max_right _ _)

theorem fresh_addr_not_mem (cs : List JRConfig) (d : Option Nat) :
    fresh_addr cs d ∉ cs.map (fun config => config.addr) := by
  intro h
  have := le_foldr_max _ (d.getD 0) _ h
  unfold fresh_addr at this
  omega

theorem destroy_sublist (cs : List JRConfig) (a : Nat) :
    List.Sublist (JRConfig.destroy cs a) cs := by
  induction cs with
  | nil => exact List.Sublist.slnil
  | cons x xs ih =>
    simp only [JRConfig.destroy]
    split
    · exact List.sublist_cons_self x xs
    · exact List.Sublist.cons₂ x ih

theorem assign_addrs (cs : List JRConfig) (a : Nat) (key : String) (r w : Int) :
    (JRConfig.assign cs a key r w).map (fun config => config.addr)
      = cs.map (fun config => config.addr) := by
  simp only [JRConfig.assign, List.map_map]
  apply List.map_congr_left
  intro x _
  simp only [Function.comp]
  split <;> rfl

theorem nodup_append_fresh (cs : List JRConfig) (d : Option Nat) (c : JRConfig)
    (hc : c.addr = fresh_addr cs d) (h : (cs.map (fun config => config.addr)).Nodup) :
    ((cs ++ [c]).map (fun config => config.addr)).Nodup := by
  rw [List.map_append, List.nodup_append]
  refine ⟨h, by simp, ?_⟩
  intro a ha hb
  simp only [List.map_cons, List.map_nil, List.mem_singleton] at hb
  rw [hb, hc] at ha
  exact fresh_addr_not_mem cs d ha

theorem distinct_addrs_SetRate (cv : String → Option Int) (s : State) (params : List String)
    (h : distinct_addrs s) : distinct_addrs (SetRate cv s params).1 := by
  unfold distinct_addrs at h ⊢
  unfold SetRate
  simp only []
  split
  · split
    · exact List.Nodup.sublist (List.Sublist.map _ (destroy_sublist _ _)) h
    · exact h
  · split
    · exact h
    · split
      · split
        · simp only [assign_addrs]; exact h
        · exact nodup_append_fresh _ _ _ rfl h
      · exact h

theorem distinct_addrs_init (s : State) (h : distinct_addrs s) :
    distinct_addrs (InitializeDefaultConfig s) := by
  unfold distinct_addrs at h ⊢
  unfold InitializeDefaultConfig
  split
  · exact h
  · exact nodup_append_fresh _ _ _ rfl h

theorem distinct_addrs_step (cv : String → Option Int) (s s1 : State) (e : Event)
    (hstep : step cv s e = .ok s1) (h : distinct_addrs s) : distinct_addrs s1 := by
  cases e with
  | join t ev =>
    simp only [step] at hstep
    cases hj : OnJoinChannel s t ev with
    | error f => rw [hj] at hstep; exact absurd hstep (by simp [Except.map])
    | ok r =>
      rw [hj] at hstep
      simp only [Except.map, Except.ok.injEq] at hstep
      subst hstep
      rcases OnJoinChannel_cases s t ev r.1 r.2 hj with ⟨hs, _⟩ | ⟨n2, cn, _, _, _, _, hs, _⟩
      · rw [hs]; exact h
      · rw [hs]; exact h
  | command params =>
    simp only [step] at hstep
    cases hx : Execute cv s params with
    | error f => rw [hx] at hstep; exact absurd hstep (by simp [Except.map])
    | ok r =>
      rw [hx] at hstep
      simp only [Except.map, Except.ok.injEq] at hstep
      subst hstep
      rcases Execute_cases cv s r.1 params r.2 hx with hs | hs
      · rw [hs]; exact h
      · rw [hs]; exact distinct_addrs_SetRate cv s params h
  | post_init =>
    simp only [step, Except.ok.injEq] at hstep
    subst hstep
    unfold OnPostInit
    split
    · exact h
    · exact distinct_addrs_init s h

theorem distinct_addrs_run (cv : String → Option Int) (evs : List Event) (s s1 : State)
    (hrun : run cv s evs = .ok s1) (h : distinct_addrs s) : distinct_addrs s1 := by
  induction evs generalizing s with
  | nil =>
    simp only [run, Except.ok.injEq] at hrun
    subst hrun; exact h
  | cons e es ih =>
    simp only [run] at hrun
    cases hs : step cv s e with
    | error f => rw [hs] at hrun; exact absurd hrun (by simp)
    | ok s2 =>
      rw [hs] at hrun
      exact ih s2 hrun (distinct_addrs_step cv s s2 e hs h)

/-! ## Claims -/

/-- C1. Monotonic clamp: under an enabled policy (rate at least 0, window
above 0), whatever the state of the channel's bucket and whatever the times,
every join of a sequence of joins of the channel completes, and after each of
them the bucket's tokens are at most the policy's rate. -/
theorem tokens_le_rate_after_every_arrival (s : State) (name : String) (cn : JRConfig)
    (ts : List Int) (hres : resolve s name = .ok cn) (hr : 0 ≤ cn.rate) (hw : 0 < cn.time) :
    ∃ s1 ds, arrivals s name ts = .ok (s1, ds) ∧ ds.length = ts.length
      ∧ ∀ p ∈ ds, ∃ v : Int, p.2 = some v ∧ v ≤ cn.rate := by
  induction ts generalizing s with
  | nil => exact ⟨s, [], rfl, rfl, by simp⟩
  | cons t ts ih =>
    have hstep := OnJoinChannel_counted s t name cn hres (by omega) (by omega)
    have hfind := joined_find s name cn t
    have hres1 : resolve (joined s name cn t) name = .ok cn := by
      rw [resolve_congr s (joined s name cn t) name rfl rfl, hres]
    obtain ⟨s2, ds, hrun, hlen, hall⟩ := ih (joined s name cn t) hres1
    refine ⟨s2, ((on_join cn (bucket_of s name t) t).2,
      (JRBucket.Find (joined s name cn t).buckets name).map (fun entry => entry.2.tokens))
        :: ds, ?_, ?_, ?_⟩
    · simp only [arrivals, hstep, hrun]
    · simp [hlen]
    · intro p hp
      rcases List.mem_cons.mp hp with rfl | hp
      · exact ⟨(on_join cn (bucket_of s name t) t).1.tokens, by simp [hfind],
          on_join_tokens_le cn _ t⟩
      · exact hall p hp

/-- C1 at a concrete input: rate 5, window 5, four joins of `#chan`. -/
theorem tokens_le_rate_after_every_arrival_witness :
    ∃ s1 ds, arrivals (ModuleJoinRate [] (some true)) "#chan" [100, 100, 101, 130]
        = .ok (s1, ds) ∧ ds.length = [100, 100, 101, (130 : Int)].length
      ∧ ∀ p ∈ ds, ∃ v : Int, p.2 = some v ∧ v ≤ (5 : Int) :=
  tokens_le_rate_after_every_arrival (ModuleJoinRate [] (some true)) "#chan"
    { addr := 1, chname := "DEFAULT", rate := 5, time := 5 } [100, 100, 101, 130]
    (by decide) (by decide) (by decide)

/-- C2. Disabled policy is inert: when the policy in force for the channel has a
negative rate or a negative window, a join returns without a warning and leaves
the whole state, the bucket map included, as it was. -/
theorem disabled_policy_is_inert (s : State) (t : Int) (name : String) (cn : JRConfig)
    (hres : resolve s name = .ok cn) (hdis : cn.rate < 0 ∨ cn.time < 0) :
    OnJoinChannel s t (arrival name) = .ok (s, .AdmitSilently) := by
  simp only [OnJoinChannel, arrival, hres, if_pos hdis]
  simp

/-- C2 at a concrete input: the channel `#quiet` has the override rate -1,
window 5. -/
theorem disabled_policy_is_inert_witness :
    OnJoinChannel
      { configs := [{ addr := 1, chname := "DEFAULT", rate := 5, time := 5 },
                    { addr := 2, chname := "#quiet", rate := -1, time := 5 }],
        default_config := some 1, buckets := [], ready := true } 100 (arrival "#Quiet")
      = .ok ({ configs := [{ addr := 1, chname := "DEFAULT", rate := 5, time := 5 },
                           { addr := 2, chname := "#quiet", rate := -1, time := 5 }],
               default_config := some 1, buckets := [], ready := true }, .AdmitSilently) :=
  disabled_policy_is_inert _ 100 "#Quiet" { addr := 2, chname := "#quiet", rate := -1, time := 5 }
    (by decide) (by decide)

/-- C3. Warning cooldown: once a join of a channel at time `t1` has warned,
then after any calls whatever (joins of any channel at any time, admin commands,
`OnPostInit`), a join of the same channel (the name compared ignoring case) at a
time `t2` below `t1 + 30` never warns, and is `WarnSuppressedByPolicy` whenever
it finds the bucket exhausted, that is, the policy in force is not disabled and
the tokens after refill and clamp are at most 0. -/
theorem warn_cooldown (cv : String → Option Int) (s0 s1 s2 s3 : State) (name name2 : String)
    (t1 t2 : Int) (evs : List Event) (d : Decision)
    (hwarn : OnJoinChannel s0 t1 (arrival name) = .ok (s1, .Warn))
    (hrun : run cv s1 evs = .ok s2)
    (hname : equals_ci name2 name = true)
    (h30 : t2 < t1 + 30)
    (hnext : OnJoinChannel s2 t2 (arrival name2) = .ok (s3, d)) :
    d ≠ .Warn ∧
      ∀ cn, resolve s2 name2 = .ok cn → ¬ (cn.rate < 0 ∨ cn.time < 0) →
        refill cn (bucket_of s2 name2 t2) t2 ≤ 0 → d = .WarnSuppressedByPolicy := by
  rw [equals_ci_iff] at hname
  have hw1 : warned_since t1 name s1 := by
    rcases OnJoinChannel_cases s0 t1 _ s1 _ hwarn with ⟨_, h | h⟩ | ⟨n, cn, hn, _, _, _, hs, hd⟩
    · exact absurd h (by simp)
    · exact absurd h (by simp)
    · simp only [arrival, Option.some.injEq] at hn
      subst hn
      rw [hs]
      exact ⟨_, joined_find s0 name cn t1, by rw [on_join_warn cn _ t1 hd.symm]⟩
  obtain ⟨e, he, hle⟩ := warned_since_run cv t1 name evs s1 s2 hrun hw1
  have hb : bucket_of s2 name2 t2 = e.2 := by
    unfold bucket_of
    rw [Find_lower _ name2 name hname, he]
  have hlt : t2 - (bucket_of s2 name2 t2).last_warn_time < 30 := by rw [hb]; omega
  constructor
  · rcases OnJoinChannel_cases s2 t2 _ s3 d hnext with ⟨_, h | h⟩ | ⟨n, cn, hn, _, _, _, _, hd⟩
    · subst h; simp
    · subst h; simp
    · simp only [arrival, Option.some.injEq] at hn
      subst hn
      rw [hd]
      exact (on_join_cooldown cn _ t2 hlt).1
  · intro cn hres hen hx
    by_cases hz : cn.time = 0
    · have hr : ¬ cn.rate < 0 := fun h => hen (Or.inl h)
      simp [OnJoinChannel, arrival, hres, hz, hr] at hnext
    · rw [OnJoinChannel_counted s2 t2 name2 cn hres hen hz] at hnext
      simp only [Except.ok.injEq, Prod.mk.injEq] at hnext
      rw [← hnext.2]
      exact (on_join_cooldown cn _ t2 hlt).2 hx

/-- C3 at a concrete input: `#chan` warns at time 100; after a join of another
channel and a `GET`, a join of `#CHAN` at time 100 finds no tokens and is
suppressed. -/
theorem warn_cooldown_witness :
    OnJoinChannel (with_bucket { tokens := 0, last_join_time := 100, last_warn_time := 0 })
        100 (arrival "#chan")
      = .ok (with_bucket { tokens := 0, last_join_time := 100, last_warn_time := 100 }, .Warn)
    ∧ OnJoinChannel
        { fresh_state with buckets :=
            [("#other", { tokens := 4, last_join_time := 101, last_warn_time := 0 }),
             ("#chan", { tokens := 0, last_join_time := 100, last_warn_time := 100 })] }
        100 (arrival "#CHAN")
      = .ok ({ fresh_state with buckets :=
            [("#other", { tokens := 4, last_join_time := 101, last_warn_time := 0 }),
             ("#chan", { tokens := 0, last_join_time := 100, last_warn_time := 100 })] },
          .WarnSuppressedByPolicy)
    ∧ Decision.WarnSuppressedByPolicy ≠ Decision.Warn :=
  ⟨by decide, by decide,
    (warn_cooldown convert_sample
      (with_bucket { tokens := 0, last_join_time := 100, last_warn_time := 0 })
      (with_bucket { tokens := 0, last_join_time := 100, last_warn_time := 100 })
      { fresh_state with buckets :=
          [("#other", { tokens := 4, last_join_time := 101, last_warn_time := 0 }),
           ("#chan", { tokens := 0, last_join_time := 100, last_warn_time := 100 })] }
      { fresh_state with buckets :=
          [("#other", { tokens := 4, last_join_time := 101, last_warn_time := 0 }),
           ("#chan", { tokens := 0, last_join_time := 100, last_warn_time := 100 })] }
      "#chan" "#CHAN" 100 100
      [.join 101 (arrival "#other"), .command ["GET", "#chan"]]
      .WarnSuppressedByPolicy (by decide) (by decide) (by decide) (by decide) (by decide)).1⟩

/-- C4, the claim as stated fails: `#chan` has a bucket last used at time 100;
after `SET #chan 1073741824 1` the join at time 101 seeds 1073741824 tokens,
the refill adds 1073741824 more, the sum does not fit the 32-bit `tokens` and
becomes -2147483648: the join is not an `Admit` and the tokens are not
`r - 1`. -/
theorem set_then_join_overflows :
    Execute convert_sample
        (with_bucket { tokens := 3, last_join_time := 100, last_warn_time := 100 })
        ["SET", "#chan", "1073741824", "1"]
      = .ok ({ configs := [builtin_default,
                 { addr := 2, chname := "#chan", rate := 1073741824, time := 1 }],
               default_config := some 1,
               buckets := [("#chan", { tokens := -1, last_join_time := 100,
                                       last_warn_time := 100 })],
               ready := true }, .now_set "#chan" 1073741824 1)
    ∧ OnJoinChannel
        { configs := [builtin_default,
            { addr := 2, chname := "#chan", rate := 1073741824, time := 1 }],
          default_config := some 1,
          buckets := [("#chan", { tokens := -1, last_join_time := 100,
                                  last_warn_time := 100 })],
          ready := true } 101 (arrival "#chan")
      = .ok ({ configs := [builtin_default,
                 { addr := 2, chname := "#chan", rate := 1073741824, time := 1 }],
               default_config := some 1,
               buckets := [("#chan", { tokens := -2147483648, last_join_time := 101,
                                       last_warn_time := 100 })],
               ready := true }, .WarnSuppressedByPolicy) := by
  constructor <;> decide

/-- C4, amended. Override invalidation: the channel has a bucket, `SET key r w`
succeeds with `r > 0` and `w > 0`, and the next join of the channel comes at a
time `now` not before the bucket's last join, with
`r + floor((now - last) * r / w)` below `2^31`, so that the refilled count fits
the `int` it is stored in.  Then the `SET` leaves the bucket uninitialised, the
join is an `Admit`, and it leaves the bucket with `r - 1` tokens, last join
`now` and the old warning time, whatever tokens the bucket held before. -/
theorem set_then_join_reseeds (cv : String → Option Int) (s : State)
    (key p2 p3 name : String) (r w now : Int) (e : String × JRBucket)
    (hb : JRBucket.Find s.buckets key = some e)
    (hnd : equals_ci p2 "DEFAULT" = false) (h2 : cv p2 = some r) (h3 : cv p3 = some w)
    (hr : 0 < r) (hw : 0 < w) (hname : equals_ci name key = true)
    (hnow : e.2.last_join_time ≤ now)
    (hfit : r + ((now - e.2.last_join_time) * r) / w < 2147483648) :
    ∃ s1 s2, Execute cv s ["SET", key, p2, p3] = .ok (s1, .now_set key r w)
      ∧ JRBucket.Find s1.buckets name = some (e.1, reset_tokens e.2)
      ∧ OnJoinChannel s1 now (arrival name) = .ok (s2, .Admit)
      ∧ JRBucket.Find s2.buckets name
          = some (lower name, { tokens := r - 1, last_join_time := now,
                                last_warn_time := e.2.last_warn_time }) := by
  rw [equals_ci_iff] at hname
  obtain ⟨cn, hcn, -, hrate, htime⟩ := Find_after_set cv s key p2 p3 name r w hnd h2 h3 hname
  have hres : resolve (SetRate cv s ["SET", key, p2, p3]).1 name = .ok cn := by
    simp only [resolve, hcn]
  have hbk : JRBucket.Find (SetRate cv s ["SET", key, p2, p3]).1.buckets name
      = some (e.1, reset_tokens e.2) := by
    rw [SetRate_set_buckets cv s key p2 p3 r w hnd h2 h3]
    exact invalidate_find_same s.buckets key name e hname
      (by rw [Find_lower _ name key hname]; exact hb)
  have hbo : bucket_of (SetRate cv s ["SET", key, p2, p3]).1 name now
      = reset_tokens e.2 := by
    simp only [bucket_of, hbk]
  have hrf : refill cn (reset_tokens e.2) now = r := by
    rw [← hrate]
    exact refill_seeded cn _ now rfl (by omega) (by omega) hnow
      (by rw [hrate, htime]; exact hfit)
  have hoj : on_join cn (reset_tokens e.2) now
      = ({ tokens := r - 1, last_join_time := now, last_warn_time := e.2.last_warn_time },
          .Admit) := by
    simp only [on_join, hrf, gt_iff_lt, if_pos hr]
    rfl
  refine ⟨(SetRate cv s ["SET", key, p2, p3]).1,
    joined (SetRate cv s ["SET", key, p2, p3]).1 name cn now, ?_, hbk, ?_, ?_⟩
  · rw [Execute_set, SetRate_set cv s key p2 p3 r w hnd h2 h3]
  · rw [OnJoinChannel_counted _ now name cn hres (by omega) (by omega), hbo, hoj]
  · rw [joined_find, hbo, hoj]

/-- C4 amended, at a concrete input: `#chan` holds 0 tokens since time 100,
`SET #Chan 10 5`, join of `#CHAN` at time 103. -/
theorem set_then_join_reseeds_witness :
    ∃ s1 s2, Execute convert_sample
        (with_bucket { tokens := 0, last_join_time := 100, last_warn_time := 100 })
        ["SET", "#Chan", "10", "5"] = .ok (s1, .now_set "#Chan" 10 5)
      ∧ JRBucket.Find s1.buckets "#CHAN"
          = some ("#chan", reset_tokens
              { tokens := 0, last_join_time := 100, last_warn_time := 100 })
      ∧ OnJoinChannel s1 103 (arrival "#CHAN") = .ok (s2, .Admit)
      ∧ JRBucket.Find s2.buckets "#CHAN"
          = some (lower "#CHAN", { tokens := 10 - 1, last_join_time := 103,
                                   last_warn_time := 100 }) :=
  set_then_join_reseeds convert_sample
    (with_bucket { tokens := 0, last_join_time := 100, last_warn_time := 100 })
    "#Chan" "10" "5" "#CHAN" 10 5 103
    ("#chan", { tokens := 0, last_join_time := 100, last_warn_time := 100 })
    (by decide) (by decide) (by decide) (by decide) (by decide) (by decide) (by decide)
    (by decide) (by decide)

/-- C5, the claim as stated fails at the spec's own `t0 = 0`: a new bucket has
`last_warn_time = 0`, so at the sixth join `CurTime - last_warn_time = 0` is
below 30 and the join is `WarnSuppressedByPolicy`, not `Warn`. -/
theorem example_scenario_at_time_zero :
    Except.map (fun r => r.2) (arrivals fresh_state "chan" [0, 0, 0, 0, 0, 0, 1, 1, 1])
      = .ok [(.Admit, some 4), (.Admit, some 3), (.Admit, some 2), (.Admit, some 1),
             (.Admit, some 0), (.WarnSuppressedByPolicy, some 0), (.Admit, some 0),
             (.WarnSuppressedByPolicy, some 0), (.WarnSuppressedByPolicy, some 0)] := by
  decide

/-- C5, amended. Example scenario: `DEFAULT` is 5 joins in 5 seconds, the
channel has no override and no bucket, and `t0` is at least 30.  Nine joins at
`t0` (six times) and `t0 + 1` (three times) all complete and are decided
`Admit` five times, `Warn`, `Admit`, `WarnSuppressedByPolicy` twice, leaving
4, 3, 2, 1, 0, 0, 0, 0, 0 tokens. -/
theorem example_scenario (s : State) (name : String) (cn : JRConfig) (t0 : Int)
    (hno : JRConfig.Find s.configs name = none)
    (hdef : deref s.configs s.default_config = .ok cn)
    (hrate : cn.rate = 5) (htime : cn.time = 5)
    (hnb : JRBucket.Find s.buckets name = none) (h30 : 30 ≤ t0) :
    Except.map (fun r => r.2)
        (arrivals s name [t0, t0, t0, t0, t0, t0, t0 + 1, t0 + 1, t0 + 1])
      = .ok [(.Admit, some 4), (.Admit, some 3), (.Admit, some 2), (.Admit, some 1),
             (.Admit, some 0), (.Warn, some 0), (.Admit, some 0),
             (.WarnSuppressedByPolicy, some 0), (.WarnSuppressedByPolicy, some 0)] := by
  have hres : resolve s name = .ok cn := by simp only [resolve, hno, hdef]
  rw [arrivals_trace s name cn _ hres (by omega) (by omega), hnb]
  exact congrArg Except.ok (trace_5_5 cn t0 hrate htime h30)

/-- C5 amended, at a concrete input: the start-up state, channel `chan`,
`t0 = 1700000000`. -/
theorem example_scenario_witness :
    Except.map (fun r => r.2)
        (arrivals fresh_state "chan"
          [1700000000, 1700000000, 1700000000, 1700000000, 1700000000, 1700000000,
           1700000000 + 1, 1700000000 + 1, 1700000000 + 1])
      = .ok [(.Admit, some 4), (.Admit, some 3), (.Admit, some 2), (.Admit, some 1),
             (.Admit, some 0), (.Warn, some 0), (.Admit, some 0),
             (.WarnSuppressedByPolicy, some 0), (.WarnSuppressedByPolicy, some 0)] :=
  example_scenario fresh_state "chan" builtin_default 1700000000
    (by decide) (by decide) (by decide) (by decide) (by decide) (by decide)

/-- C6, the code at the failing input: `SET #chan 5 0` is accepted, and the
next join of `#chan` divides by the window 0. -/
theorem join_with_zero_window_divides_by_zero :
    Execute convert_sample fresh_state ["SET", "#chan", "5", "0"]
      = .ok ({ configs := [builtin_default, { addr := 2, chname := "#chan", rate := 5, time := 0 }],
               default_config := some 1, buckets := [], ready := true },
             .now_set "#chan" 5 0)
    ∧ OnJoinChannel
        { configs := [builtin_default, { addr := 2, chname := "#chan", rate := 5, time := 0 }],
          default_config := some 1, buckets := [], ready := true } 100 (arrival "#chan")
      = .error .div_by_zero := by
  constructor <;> decide

/-- C7, the code at the failing input: the module is constructed while the
server is not synced, so `ready` is false and `default_config` is `NULL`; a
join of a channel without override that passes the guards reads through the
`NULL` pointer. -/
theorem join_while_not_ready_reads_null :
    ModuleJoinRate [] (some false)
      = { configs := [], default_config := none, buckets := [], ready := false }
    ∧ OnJoinChannel (ModuleJoinRate [] (some false)) 100 (arrival "#chan")
      = .error .null_deref := by
  constructor <;> decide

/-- C8, the code at the failing input: in the start-up state `SET DEFAULT DEFAULT`
destroys the `DEFAULT` policy; the store no longer has it, `default_config`
still holds its address, and the next join of a channel without override reads
through the dangling pointer. -/
theorem set_default_default_deletes_default :
    Execute convert_sample fresh_state ["SET", "DEFAULT", "DEFAULT"]
      = .ok ({ configs := [], default_config := some 1, buckets := [], ready := true },
             .returned_to_default "DEFAULT")
    ∧ JRConfig.Find ([] : List JRConfig) "DEFAULT" = none
    ∧ OnJoinChannel { configs := [], default_config := some 1, buckets := [], ready := true }
        100 (arrival "#chan") = .error .dangling_deref := by
  refine ⟨?_, ?_, ?_⟩ <;> decide

/-- The policy `JRConfig::Find` returns is the first stored one whose name
equals the key ignoring case. -/
theorem Find_first (cs : List JRConfig) (key : String) (jc : JRConfig)
    (h : JRConfig.Find cs key = some jc) :
    ∃ pre post, cs = pre ++ jc :: post ∧ (∀ x ∈ pre, equals_ci x.chname key = false)
      ∧ equals_ci jc.chname key = true := by
  unfold JRConfig.Find at h
  obtain ⟨hp, pre, post, hdec, hall⟩ := List.find?_eq_some.mp h
  exact ⟨pre, post, hdec, fun x hx => by simpa using hall x hx, hp⟩

/-- C9. Get resolves the effective policy without mutation: in a ready state
`GET key` returns the state unchanged.  When some stored policy has a name equal
to `key` ignoring case, the reply is the one without "(default)" and carries the
rate and window of the first such policy in the store; in a store with one
policy per name that is the rate and window of that very policy.  When no
stored policy matches `key`, the reply is the one marked "(default)" and
carries the rate and window of the first stored policy named `DEFAULT`. -/
theorem get_reports_effective_policy (cv : String → Option Int) (s : State) (key : String)
    (hready : Ready s) :
    ∃ reply, Execute cv s ["GET", key] = .ok (s, reply)
      ∧ (∀ c ∈ s.configs, equals_ci c.chname key = true →
          ∃ pre jc post, s.configs = pre ++ jc :: post
            ∧ (∀ x ∈ pre, equals_ci x.chname key = false)
            ∧ equals_ci jc.chname key = true
            ∧ reply = .threshold key jc.rate jc.time)
      ∧ (one_per_key s → ∀ c ∈ s.configs, equals_ci c.chname key = true →
          reply = .threshold key c.rate c.time)
      ∧ ((∀ c ∈ s.configs, equals_ci c.chname key = false) →
          ∃ pre d post, s.configs = pre ++ d :: post
            ∧ (∀ x ∈ pre, equals_ci x.chname "DEFAULT" = false)
            ∧ equals_ci d.chname "DEFAULT" = true
            ∧ reply = .threshold_default key d.rate d.time) := by
  obtain ⟨-, d, hd, hderef⟩ := hready
  rw [Execute_get]
  cases hf : JRConfig.Find s.configs key with
  | some jc =>
    obtain ⟨pre, post, hdec, hpre, hjc⟩ := Find_first s.configs key jc hf
    refine ⟨.threshold key jc.rate jc.time, ?_, ?_, ?_, ?_⟩
    · simp [GetRate, hf]
    · intro c _ _
      exact ⟨pre, jc, post, hdec, hpre, hjc, rfl⟩
    · intro huniq c hc hck
      have hmem : jc ∈ s.configs := (Find_mem s.configs key jc hf).1
      have hcj : c = jc := by
        by_contra hne
        have hsym : Symmetric (fun a b : JRConfig => equals_ci a.chname b.chname = false) :=
          fun a b h => by
            show equals_ci b.chname a.chname = false
            rw [equals_ci_comm]; exact h
        have hdiff := List.Pairwise.forall hsym huniq hc hmem hne
        rw [equals_ci_iff] at hck hjc
        have : equals_ci c.chname jc.chname = true := by rw [equals_ci_iff, hck, hjc]
        rw [this] at hdiff
        exact absurd hdiff (by simp)
      rw [hcj]
    · intro hnone
      rw [Find_none s.configs key hnone] at hf
      exact absurd hf (by simp)
  | none =>
    have hno : ∀ c ∈ s.configs, equals_ci c.chname key = true → False := by
      intro c hc hck
      unfold JRConfig.Find at hf
      rw [List.find?_eq_none] at hf
      exact hf c hc hck
    refine ⟨.threshold_default key d.rate d.time, ?_, ?_, ?_, ?_⟩
    · simp [GetRate, hf, hderef]
    · intro c hc hck
      exact absurd (hno c hc hck) id
    · intro _ c hc hck
      exact absurd (hno c hc hck) id
    · intro _
      obtain ⟨pre, post, hdec, hpre, hdn⟩ := Find_first s.configs "DEFAULT" d hd
      exact ⟨pre, d, post, hdec, hpre, hdn, rfl⟩

/-- C9 at a concrete input: the store holds `DEFAULT` 5/5 and the override
`#chan` 10/5; `GET #CHAN` reports the override, `GET #new` the default. -/
theorem get_reports_effective_policy_witness :
    Execute convert_sample two_buckets ["GET", "#CHAN"]
        = .ok (two_buckets, .threshold "#CHAN" 10 5)
      ∧ Execute convert_sample two_buckets ["GET", "#new"]
        = .ok (two_buckets, .threshold_default "#new" 5 5) := by
  constructor
  · obtain ⟨reply, h1, -, h3, -⟩ := get_reports_effective_policy convert_sample two_buckets
      "#CHAN" ⟨by decide, builtin_default, by decide, by decide⟩
    rw [h1, h3 (by decide) { addr := 2, chname := "#chan", rate := 10, time := 5 }
      (by decide) (by decide)]
  · obtain ⟨reply, h1, -, -, h4⟩ := get_reports_effective_policy convert_sample two_buckets
      "#new" ⟨by decide, builtin_default, by decide, by decide⟩
    obtain ⟨pre, d, post, hdec, hpre, hdn, hr⟩ := h4 (by decide)
    have hd : d = builtin_default := by
      have hf : JRConfig.Find two_buckets.configs "DEFAULT" = some d := by
        unfold JRConfig.Find
        rw [List.find?_eq_some]
        exact ⟨hdn, pre, post, hdec, fun x hx => by simpa using hpre x hx⟩
      have hf2 : JRConfig.Find two_buckets.configs "DEFAULT" = some builtin_default := by
        decide
      rw [hf2] at hf
      simp only [Option.some.injEq] at hf
      exact hf.symm
    rw [h1, hr, hd]
    rfl

/-- C10. Set is an upsert read back by Get: in a state whose live policies
have distinct addresses, a `SET key r w` whose numbers convert succeeds; after
it `GET` of any spelling of `key` reports `r` and `w` as an override (not marked
default) and changes nothing; the first policy of every other key is as
before; a bucket stored for `key` is still stored under the same key with
tokens -1, its last join time and its last warning time as they were; and
`default_config` and `ready` are as before. -/
theorem set_then_get (cv : String → Option Int) (s : State) (key p2 p3 key2 : String)
    (r w : Int) (hnd : equals_ci p2 "DEFAULT" = false) (h2 : cv p2 = some r)
    (h3 : cv p3 = some w) (hkey : equals_ci key2 key = true) (hwf : distinct_addrs s) :
    ∃ s1, Execute cv s ["SET", key, p2, p3] = .ok (s1, .now_set key r w)
      ∧ Execute cv s1 ["GET", key2] = .ok (s1, .threshold key2 r w)
      ∧ (∀ k, equals_ci k key = false → JRConfig.Find s1.configs k = JRConfig.Find s.configs k)
      ∧ (∀ e, JRBucket.Find s.buckets key = some e →
          JRBucket.Find s1.buckets key
            = some (e.1, { tokens := -1, last_join_time := e.2.last_join_time,
                           last_warn_time := e.2.last_warn_time }))
      ∧ s1.default_config = s.default_config ∧ s1.ready = s.ready := by
  rw [equals_ci_iff] at hkey
  obtain ⟨c, hc, -, hrate, htime⟩ := Find_after_set cv s key p2 p3 key2 r w hnd h2 h3 hkey
  refine ⟨(SetRate cv s ["SET", key, p2, p3]).1, ?_, ?_, ?_, ?_, ?_, ?_⟩
  · rw [Execute_set, SetRate_set cv s key p2 p3 r w hnd h2 h3]
  · rw [Execute_get]
    simp [GetRate, hc, hrate, htime]
  · intro k hk
    exact Find_after_set_other cv s key p2 p3 k r w hnd h2 h3 hwf hk
  · intro e he
    rw [SetRate_set_buckets cv s key p2 p3 r w hnd h2 h3]
    exact invalidate_find_same s.buckets key key e rfl he
  · rw [SetRate_set cv s key p2 p3 r w hnd h2 h3]
  · rw [SetRate_set cv s key p2 p3 r w hnd h2 h3]

/-- C10 at a concrete input: `#chan` has a bucket with 3 tokens, last join 100,
last warning 40, and no override; `SET #Chan 10 5`, then `GET #CHAN`: the
override reads back and the bucket holds -1, 100, 40. -/
theorem set_then_get_witness :
    ∃ s1, Execute convert_sample
        (with_bucket { tokens := 3, last_join_time := 100, last_warn_time := 40 })
        ["SET", "#Chan", "10", "5"] = .ok (s1, .now_set "#Chan" 10 5)
      ∧ Execute convert_sample s1 ["GET", "#CHAN"] = .ok (s1, .threshold "#CHAN" 10 5)
      ∧ JRBucket.Find s1.buckets "#Chan"
          = some ("#chan", { tokens := -1, last_join_time := 100, last_warn_time := 40 }) := by
  obtain ⟨s1, h1, h2, -, h4, -, -⟩ := set_then_get convert_sample
    (with_bucket { tokens := 3, last_join_time := 100, last_warn_time := 40 })
    "#Chan" "10" "5" "#CHAN" 10 5 (by decide) (by decide) (by decide) (by decide) (by decide)
  exact ⟨s1, h1, h2,
    h4 ("#chan", { tokens := 3, last_join_time := 100, last_warn_time := 40 }) (by decide)⟩

/-! ## The policy store under `SET key DEFAULT` -/

theorem find_filter_of_imp {α : Type} (l : List α) (p q : α → Bool)
    (h : ∀ x ∈ l, q x = true → p x = true) : (l.filter p).find? q = l.find? q := by
  induction l with
  | nil => rfl
  | cons x xs ih =>
    have ih1 := ih (fun y hy => h y (List.mem_cons_of_mem x hy))
    cases hq : q x with
    | true =>
      have hp := h x (List.mem_cons_self x xs) hq
      simp [List.filter_cons, hp, List.find?_cons, hq]
    | false =>
      cases hp : p x with
      | true => simp [List.filter_cons, hp, List.find?_cons, hq, ih1]
      | false => simp [List.filter_cons, hp, List.find?_cons, hq, ih1]

theorem destroy_eq_filter (cs : List JRConfig) (a : Nat)
    (h : (cs.map (fun config => config.addr)).Nodup) :
    JRConfig.destroy cs a = cs.filter (fun config => decide (config.addr ≠ a)) := by
  induction cs with
  | nil => rfl
  | cons x xs ih =>
    rw [List.map_cons, List.nodup_cons] at h
    by_cases hx : x.addr = a
    · have hall : ∀ y ∈ xs, decide (y.addr ≠ a) = true := by
        intro y hy
        have : y.addr ≠ a := by
          intro hya
          exact h.1 (by rw [hx, ← hya]; exact List.mem_map_of_mem _ hy)
        simpa using this
      simp only [JRConfig.destroy, if_pos hx, List.filter_cons, hx, ne_eq, not_true_eq_false,
        decide_False, Bool.false_eq_true, if_false]
      exact (List.filter_eq_self.mpr hall).symm
    · rw [JRConfig.destroy, if_neg hx, ih h.2]
      simp [List.filter_cons, hx]

theorem same_addr_eq (s : State) (hwf : distinct_addrs s) (x y : JRConfig)
    (hx : x ∈ s.configs) (hy : y ∈ s.configs) (h : x.addr = y.addr) : x = y :=
  List.inj_on_of_nodup_map hwf hx hy h

theorem equals_ci_symm_false (a b : String) (h : equals_ci a b = false) :
    equals_ci b a = false := by rw [equals_ci_comm]; exact h

/-- With one policy per name, destroying the policy found for `key` leaves none
for `key`. -/
theorem destroy_no_match (s : State) (key : String) (jc : JRConfig)
    (hwf : distinct_addrs s) (huniq : one_per_key s)
    (hf : JRConfig.Find s.configs key = some jc) :
    ∀ c ∈ JRConfig.destroy s.configs jc.addr, equals_ci c.chname key = false := by
  obtain ⟨hmem, hname⟩ := Find_mem s.configs key jc hf
  intro c hc
  rw [destroy_eq_filter s.configs jc.addr hwf, List.mem_filter] at hc
  have hca : c.addr ≠ jc.addr := by simpa using hc.2
  have hne : c ≠ jc := fun h => hca (by rw [h])
  have hsym : Symmetric (fun a b : JRConfig => equals_ci a.chname b.chname = false) :=
    fun a b h => equals_ci_symm_false _ _ h
  have := List.Pairwise.forall hsym huniq hc.1 hmem hne
  rw [← equals_ci_congr hname c.chname]
  exact this

/-- Destroying the policy found for `key` keeps the first policy of every other
name. -/
theorem Find_destroy_other (s : State) (key k : String) (jc : JRConfig)
    (hwf : distinct_addrs s) (hf : JRConfig.Find s.configs key = some jc)
    (hk : equals_ci k key = false) :
    JRConfig.Find (JRConfig.destroy s.configs jc.addr) k = JRConfig.Find s.configs k := by
  obtain ⟨hmem, hname⟩ := Find_mem s.configs key jc hf
  rw [destroy_eq_filter s.configs jc.addr hwf]
  unfold JRConfig.Find
  apply find_filter_of_imp
  intro x hx hxk
  have : x.addr ≠ jc.addr := by
    intro h
    have hxj := same_addr_eq s hwf x jc hx hmem h
    rw [hxj, equals_ci_comm, equals_ci_congr hname k] at hxk
    rw [hk] at hxk
    exact absurd hxk (by simp)
  simpa using this

/-- Destroying the policy found for `key` keeps what a pointer to another live
policy reads. -/
theorem deref_destroy_other (s : State) (jc d : JRConfig) (p : Option Nat)
    (hwf : distinct_addrs s)
    (hd : deref s.configs p = .ok d) (hne : d.addr ≠ jc.addr) :
    deref (JRConfig.destroy s.configs jc.addr) p = .ok d := by
  cases p with
  | none => simp [deref] at hd
  | some a =>
    simp only [deref] at hd ⊢
    cases hfa : s.configs.find? (fun config => config.addr == a) with
    | none => rw [hfa] at hd; simp at hd
    | some d2 =>
      rw [hfa] at hd
      simp only [Except.ok.injEq] at hd
      subst hd
      have ha : d2.addr = a := by simpa using List.find?_some hfa
      rw [destroy_eq_filter s.configs jc.addr hwf]
      rw [find_filter_of_imp s.configs _ _ (by
        intro x _ hxa
        have h1 : x.addr = a := by simpa using hxa
        have : x.addr ≠ jc.addr := by rw [h1, ← ha]; exact hne
        simpa using this), hfa]

theorem SetRate_reset (cv : String → Option Int) (s : State) (key : String) :
    SetRate cv s ["SET", key, "DEFAULT"]
      = ({ s with
            configs := (match JRConfig.Find s.configs key with
              | some jc => JRConfig.destroy s.configs jc.addr
              | none => s.configs),
            buckets := invalidate s.buckets (JRBucket.Find s.buckets key) },
          .returned_to_default key) := by
  have h : equals_ci "DEFAULT" "DEFAULT" = true := by decide
  simp [SetRate, h]

theorem Execute_reset (cv : String → Option Int) (s : State) (key : String) :
    Execute cv s ["SET", key, "DEFAULT"] = .ok (SetRate cv s ["SET", key, "DEFAULT"]) := by
  have h1 : equals_ci "SET" "GET" = false := by decide
  have h2 : equals_ci "SET" "SET" = true := by decide
  simp [Execute, h1, h2]
theorem on_join_decision (cn : JRConfig) (b : JRBucket) (t : Int) :
    (on_join cn b t).2 = .Admit ∨ (on_join cn b t).2 = .Warn
      ∨ (on_join cn b t).2 = .WarnSuppressedByPolicy := by
  unfold on_join
  simp only []
  split
  · exact Or.inl rfl
  · split
    · exact Or.inr (Or.inl rfl)
    · exact Or.inr (Or.inr rfl)

theorem arrival_not_ignored (s : State) (t : Int) (name : String) (s1 : State) (d : Decision)
    (h : OnJoinChannel s t (arrival name) = .ok (s1, d)) : d ≠ .Ignored := by
  cases hres : resolve s name with
  | error f => simp [OnJoinChannel, arrival, hres] at h
  | ok cn =>
    by_cases hdis : cn.rate < 0 ∨ cn.time < 0
    · simp only [OnJoinChannel, arrival, hres, if_pos hdis] at h
      simp at h
      rw [← h.2]; simp
    · by_cases hz : cn.time = 0
      · have hr : ¬ cn.rate < 0 := fun h => hdis (Or.inl h)
        simp [OnJoinChannel, arrival, hres, hz, hr] at h
      · rw [OnJoinChannel_counted s t name cn hres hdis hz] at h
        simp only [Except.ok.injEq, Prod.mk.injEq] at h
        rw [← h.2]
        rcases on_join_decision cn (bucket_of s name t) t with h1 | h1 | h1 <;> rw [h1] <;> simp

/-- What `SET key DEFAULT` does in any state: it succeeds, a bucket stored for
`key` keeps its times and gets tokens -1, nothing but `configs` and `buckets`
changes, and without a policy for `key` the store is left as it is. -/
theorem reset_any_state (cv : String → Option Int) (s : State) (key : String) :
    ∃ s1, Execute cv s ["SET", key, "DEFAULT"] = .ok (s1, .returned_to_default key)
      ∧ s1 = (SetRate cv s ["SET", key, "DEFAULT"]).1
      ∧ (∀ e, JRBucket.Find s.buckets key = some e →
          JRBucket.Find s1.buckets key = some (e.1, reset_tokens e.2))
      ∧ (JRConfig.Find s.configs key = none → s1.configs = s.configs)
      ∧ s1.default_config = s.default_config ∧ s1.ready = s.ready := by
  refine ⟨(SetRate cv s ["SET", key, "DEFAULT"]).1, ?_, rfl, ?_, ?_, ?_, ?_⟩
  · rw [Execute_reset, SetRate_reset]
  · intro e he
    rw [SetRate_reset]
    exact invalidate_find_same s.buckets key key e rfl he
  · intro hnone
    rw [SetRate_reset]
    simp only [hnone]
  · rw [SetRate_reset]
  · rw [SetRate_reset]

theorem reset_no_override (cv : String → Option Int) (s : State) (key : String)
    (hwf : distinct_addrs s) (huniq : one_per_key s) :
    ∀ c ∈ (SetRate cv s ["SET", key, "DEFAULT"]).1.configs, equals_ci c.chname key = false := by
  rw [SetRate_reset]
  cases hf : JRConfig.Find s.configs key with
  | none =>
    intro c hc
    unfold JRConfig.Find at hf
    rw [List.find?_eq_none] at hf
    simpa using hf c hc
  | some jc => exact destroy_no_match s key jc hwf huniq hf

theorem reset_keeps_default (cv : String → Option Int) (s : State) (key : String) (d : JRConfig)
    (hkey : equals_ci key "DEFAULT" = false) (hwf : distinct_addrs s)
    (hd : JRConfig.Find s.configs "DEFAULT" = some d)
    (hderef : deref s.configs s.default_config = .ok d) :
    JRConfig.Find (SetRate cv s ["SET", key, "DEFAULT"]).1.configs "DEFAULT" = some d
      ∧ deref (SetRate cv s ["SET", key, "DEFAULT"]).1.configs
          (SetRate cv s ["SET", key, "DEFAULT"]).1.default_config = .ok d := by
  rw [SetRate_reset]
  cases hf : JRConfig.Find s.configs key with
  | none => exact ⟨hd, hderef⟩
  | some jc =>
    obtain ⟨hjm, hjn⟩ := Find_mem s.configs key jc hf
    obtain ⟨hdm, hdn⟩ := Find_mem s.configs "DEFAULT" d hd
    have hne : d.addr ≠ jc.addr := by
      intro h
      have := same_addr_eq s hwf d jc hdm hjm h
      rw [this] at hdn
      rw [equals_ci_iff] at hdn hjn
      have hk : equals_ci key "DEFAULT" = true := by rw [equals_ci_iff, ← hjn, hdn]
      rw [hk] at hkey
      exact absurd hkey (by simp)
    refine ⟨?_, deref_destroy_other s jc d _ hwf hderef hne⟩
    rw [Find_destroy_other s key "DEFAULT" jc hwf hf]
    · exact hd
    · rw [equals_ci_comm]; exact hkey

/-- C11. Reset reverts to default and is idempotent: in a ready state with
distinct addresses and one policy per name, for a key other than `DEFAULT`,
`SET key DEFAULT` succeeds; afterwards no stored policy matches `key`, `GET key`
reports the `DEFAULT` policy marked "(default)", and a bucket stored for `key`
is still stored under the same key with tokens -1, its last join time and its
last warning time as they were.  A second `SET key DEFAULT`, directly or
after a join of `key` in between, leaves the policy store as the first one left
it and again sets the tokens of the bucket stored for `key` to -1; a join in
between that was counted has left such a bucket. -/
theorem reset_reverts_to_default (cv : String → Option Int) (s : State) (key : String)
    (t : Int) (hkey : equals_ci key "DEFAULT" = false) (hready : Ready s)
    (hwf : distinct_addrs s) (huniq : one_per_key s) :
    ∃ s1 d, Execute cv s ["SET", key, "DEFAULT"] = .ok (s1, .returned_to_default key)
      ∧ (∀ c ∈ s1.configs, equals_ci c.chname key = false)
      ∧ JRConfig.Find s.configs "DEFAULT" = some d
      ∧ Execute cv s1 ["GET", key] = .ok (s1, .threshold_default key d.rate d.time)
      ∧ (∀ e, JRBucket.Find s.buckets key = some e →
          JRBucket.Find s1.buckets key = some (e.1, { tokens := -1, last_join_time := e.2.last_join_time,
                                                      last_warn_time := e.2.last_warn_time }))
      ∧ (∃ s2, Execute cv s1 ["SET", key, "DEFAULT"] = .ok (s2, .returned_to_default key)
          ∧ s2.configs = s1.configs)
      ∧ (∀ sj dj, OnJoinChannel s1 t (arrival key) = .ok (sj, dj) →
          ∃ s2, Execute cv sj ["SET", key, "DEFAULT"] = .ok (s2, .returned_to_default key)
            ∧ s2.configs = s1.configs
            ∧ (∀ e, JRBucket.Find sj.buckets key = some e →
                JRBucket.Find s2.buckets key = some (e.1, { tokens := -1, last_join_time := e.2.last_join_time,
                                                            last_warn_time := e.2.last_warn_time }))
            ∧ (dj ≠ .AdmitSilently → ∃ e, JRBucket.Find sj.buckets key = some e)) := by
  obtain ⟨-, d, hd, hderef⟩ := hready
  obtain ⟨s1, hex, hs1, hbk, -, -, -⟩ := reset_any_state cv s key
  have hno : ∀ c ∈ s1.configs, equals_ci c.chname key = false := by
    rw [hs1]; exact reset_no_override cv s key hwf huniq
  have hnone : JRConfig.Find s1.configs key = none := Find_none s1.configs key hno
  have hkeep := reset_keeps_default cv s key d hkey hwf hd hderef
  rw [← hs1] at hkeep
  refine ⟨s1, d, hex, hno, hd, ?_, hbk, ?_, ?_⟩
  · rw [Execute_get]
    simp [GetRate, hnone, hkeep.2]
  · obtain ⟨s2, hex2, -, -, hc2, -, -⟩ := reset_any_state cv s1 key
    exact ⟨s2, hex2, hc2 hnone⟩
  · intro sj dj hj
    have hcfg : sj.configs = s1.configs ∧ (dj ≠ .AdmitSilently →
        ∃ e, JRBucket.Find sj.buckets key = some e) := by
      rcases OnJoinChannel_cases s1 t _ sj dj hj with ⟨h1, h2⟩ | ⟨n, cn, hn, _, _, _, hs, _⟩
      · refine ⟨by rw [h1], ?_⟩
        intro hne
        rcases h2 with h2 | h2
        · exact absurd h2 (arrival_not_ignored s1 t key sj dj hj)
        · exact absurd h2 hne
      · simp only [arrival, Option.some.injEq] at hn
        subst hn
        rw [hs]
        exact ⟨rfl, fun _ => ⟨_, joined_find s1 key cn t⟩⟩
    obtain ⟨s2, hex2, -, hbk2, hc2, -, -⟩ := reset_any_state cv sj key
    refine ⟨s2, hex2, ?_, hbk2, hcfg.2⟩
    rw [hc2 (by rw [hcfg.1]; exact hnone), hcfg.1]

/-- C11 at a concrete input: the store holds the override `#chan` 10/5 and the
bucket of `#chan` holds 9 tokens, last join 101; `SET #CHAN DEFAULT` removes
the override, `GET #CHAN` reports `DEFAULT` 5/5, the bucket holds -1 with its
times kept, and after a join at time 105 a second reset sets the tokens to -1
again. -/
theorem reset_reverts_to_default_witness :
    ∃ s1, Execute convert_sample two_buckets ["SET", "#CHAN", "DEFAULT"]
        = .ok (s1, .returned_to_default "#CHAN")
      ∧ (∀ c ∈ s1.configs, equals_ci c.chname "#CHAN" = false)
      ∧ Execute convert_sample s1 ["GET", "#CHAN"]
          = .ok (s1, .threshold_default "#CHAN" 5 5)
      ∧ JRBucket.Find s1.buckets "#CHAN"
          = some ("#chan", { tokens := -1, last_join_time := 101, last_warn_time := 0 })
      ∧ (∀ sj dj, OnJoinChannel s1 105 (arrival "#CHAN") = .ok (sj, dj) →
          ∃ s2, Execute convert_sample sj ["SET", "#CHAN", "DEFAULT"]
              = .ok (s2, .returned_to_default "#CHAN")
            ∧ s2.configs = s1.configs
            ∧ (∀ e, JRBucket.Find sj.buckets "#CHAN" = some e →
                JRBucket.Find s2.buckets "#CHAN"
                  = some (e.1, { tokens := -1, last_join_time := e.2.last_join_time,
                                 last_warn_time := e.2.last_warn_time }))
            ∧ (dj ≠ .AdmitSilently → ∃ e, JRBucket.Find sj.buckets "#CHAN" = some e)) := by
  obtain ⟨s1, d, h1, h2, h3, h4, h5, -, h7⟩ := reset_reverts_to_default convert_sample
    two_buckets "#CHAN" 105 (by decide) ⟨by decide, builtin_default, by decide, by decide⟩
    (by decide) (by decide)
  have hd : d = builtin_default := by
    have : JRConfig.Find two_buckets.configs "DEFAULT" = some builtin_default := by decide
    rw [this] at h3
    simp only [Option.some.injEq] at h3
    exact h3.symm
  refine ⟨s1, h1, h2, ?_, ?_, h7⟩
  · rw [h4, hd]; rfl
  · exact h5 ("#chan", { tokens := 9, last_join_time := 101, last_warn_time := 0 })
      (by decide)

/-! ## Rejected admin input -/

theorem SET_not_GET (p : String) (h : equals_ci p "SET" = true) : equals_ci p "GET" = false := by
  rw [equals_ci_iff] at h
  simp only [equals_ci, h]
  decide

/-- A reply that turns the request down comes with the state unchanged. -/
theorem rejection_keeps_state (cv : String → Option Int) (s s1 : State) (params : List String)
    (reply : Reply) (h : Execute cv s params = .ok (s1, reply))
    (hr : reply.is_rejection = true) : s1 = s := by
  rcases Execute_cases cv s s1 params reply h with hs | hs
  · exact hs
  · unfold Execute at h
    split at h
    · simp only [Except.ok.injEq, Prod.mk.injEq] at h; exact h.1.symm
    · split at h
      · unfold GetRate at h
        simp only [] at h
        split at h
        · split at h
          · exact absurd h (by simp)
          · simp only [Except.ok.injEq, Prod.mk.injEq] at h; exact h.1.symm
        · simp only [Except.ok.injEq, Prod.mk.injEq] at h; exact h.1.symm
      · split at h
        · simp only [Except.ok.injEq] at h
          unfold SetRate at h
          simp only [] at h
          split at h
          · simp only [Prod.mk.injEq] at h
            rw [← h.2] at hr
            simp [Reply.is_rejection] at hr
          · split at h
            · simp only [Prod.mk.injEq] at h; exact h.1.symm
            · split at h
              · simp only [Prod.mk.injEq] at h
                rw [← h.2] at hr
                simp [Reply.is_rejection] at hr
              · simp only [Prod.mk.injEq] at h; exact h.1.symm
        · simp only [Except.ok.injEq, Prod.mk.injEq] at h; exact h.1.symm

/-- C12. Rejected admin input mutates nothing: for every state and parameter
list, when the input is one of those turned down (no parameters, unknown
subcommand, `GET` without a key, `SET` with fewer than three parameters, `SET`
with a third parameter other than `DEFAULT` and no window, or a rate or window
that does not convert), `Execute` answers with a usage error,
"Please provide a rate and time limit" or "Invalid value" and returns the
state, policies and buckets, exactly as it was. -/
theorem rejected_input_mutates_nothing (cv : String → Option Int) (s : State)
    (params : List String) (h : rejected cv params = true) :
    ∃ reply, Execute cv s params = .ok (s, reply) ∧ reply.is_rejection = true := by
  cases hx : Execute cv s params with
  | error f =>
    exfalso
    unfold Execute at hx
    simp only [List.getD_eq_getElem?_getD] at hx
    split at hx
    · simp at hx
    · rename_i hne
      split at hx
      · rename_i hget
        simp only [Bool.and_eq_true, decide_eq_true_eq] at hget
        have hset : equals_ci (params[0]?.getD "") "SET" = false := by
          cases hs : equals_ci (params[0]?.getD "") "SET" with
          | false => rfl
          | true => rw [SET_not_GET _ hs] at hget; exact absurd hget.1 (by simp)
        have hl : ¬ params.length ≤ 1 := by omega
        simp [rejected, hne, hget.1, hset, hl] at h
      · split at hx <;> simp at hx
  | ok r =>
    obtain ⟨s1, reply⟩ := r
    suffices hrej : reply.is_rejection = true by
      have := rejection_keeps_state cv s s1 params reply hx hrej
      subst this
      exact ⟨reply, rfl, hrej⟩
    unfold Execute at hx
    simp only [List.getD_eq_getElem?_getD] at hx
    split at hx
    · simp only [Except.ok.injEq, Prod.mk.injEq] at hx
      rw [← hx.2]; rfl
    · rename_i hne
      split at hx
      · rename_i hget
        simp only [Bool.and_eq_true, decide_eq_true_eq] at hget
        have hset : equals_ci (params[0]?.getD "") "SET" = false := by
          cases hs : equals_ci (params[0]?.getD "") "SET" with
          | false => rfl
          | true => rw [SET_not_GET _ hs] at hget; exact absurd hget.1 (by simp)
        have hl : ¬ params.length ≤ 1 := by omega
        simp [rejected, hne, hget.1, hset, hl] at h
      · rename_i hnget
        split at hx
        · rename_i hset
          simp only [Bool.and_eq_true, decide_eq_true_eq] at hset
          have hg := SET_not_GET _ hset.1
          have hl3 : ¬ params.length < 3 := by omega
          have hl3b : 3 ≤ params.length := by omega
          simp only [rejected, List.getD_eq_getElem?_getD, hne, hg, hset.1, hl3, hl3b, Bool.not_false, Bool.not_true,
            Bool.and_false, Bool.false_and, Bool.or_false, Bool.false_or, decide_False,
            decide_True, Bool.true_and, Bool.and_eq_true, Bool.not_eq_true',
            Bool.or_eq_true, decide_eq_true_eq, Option.isNone_iff_eq_none] at h
          simp only [Except.ok.injEq] at hx
          unfold SetRate at hx
          simp only [List.getD_eq_getElem?_getD] at hx
          simp only [h.1, Bool.false_eq_true, if_false] at hx
          split at hx
          · simp only [Prod.mk.injEq] at hx
            rw [← hx.2]; rfl
          · rename_i hl4
            split at hx
            · rename_i r w h2 h3
              rcases h.2 with (h4 | h4) | h4
              · exact absurd h4 hl4
              · rw [h4] at h2; exact absurd h2 (by simp)
              · rw [h4] at h3; exact absurd h3 (by simp)
            · simp only [Prod.mk.injEq] at hx
              rw [← hx.2]; rfl
        · simp only [Except.ok.injEq, Prod.mk.injEq] at hx
          rw [← hx.2]; rfl

/-- C12 at a concrete input: `SET #chan 5 x` with a window that does not
convert, in a state that has a bucket for `#chan`. -/
theorem rejected_input_mutates_nothing_witness :
    ∃ reply, Execute convert_sample
        (with_bucket { tokens := 3, last_join_time := 100, last_warn_time := 40 })
        ["SET", "#chan", "5", "x"]
      = .ok (with_bucket { tokens := 3, last_join_time := 100, last_warn_time := 40 }, reply)
      ∧ reply.is_rejection = true :=
  rejected_input_mutates_nothing convert_sample
    (with_bucket { tokens := 3, last_join_time := 100, last_warn_time := 40 })
    ["SET", "#chan", "5", "x"] (by decide)

/-! ## Initialisation -/

theorem deref_of_mem (cs : List JRConfig) (d : JRConfig)
    (hwf : (cs.map (fun config => config.addr)).Nodup) (hd : d ∈ cs) :
    deref cs (some d.addr) = .ok d := by
  have : cs.find? (fun config => config.addr == d.addr) = some d := by
    induction cs with
    | nil => simp at hd
    | cons x xs ih =>
      by_cases hx : x.addr = d.addr
      · have : x = d :=
          List.inj_on_of_nodup_map hwf (List.mem_cons_self x xs) hd hx
        simp [List.find?_cons, this]
      · have hx2 : (x.addr == d.addr) = false := by simpa using hx
        rw [List.map_cons, List.nodup_cons] at hwf
        rcases List.mem_cons.mp hd with h | h
        · exact absurd (by rw [h]) hx
        · simp only [List.find?_cons, hx2]
          exact ih hwf.2 h
  simp only [deref, this]

theorem deref_append_fresh (cs : List JRConfig) (p : Option Nat) (c : JRConfig)
    (hc : c.addr = fresh_addr cs p) : deref (cs ++ [c]) (some c.addr) = .ok c := by
  have hnone : cs.find? (fun config => config.addr == c.addr) = none := by
    rw [List.find?_eq_none]
    intro x hx hxa
    have h1 : x.addr = c.addr := by simpa using hxa
    apply fresh_addr_not_mem cs p
    rw [← hc, ← h1]
    exact List.mem_map_of_mem _ hx
  simp [deref, List.find?_append, hnone, List.find?_cons]

theorem InitializeDefaultConfig_ready (s : State) (hwf : distinct_addrs s) :
    Ready (InitializeDefaultConfig s) := by
  unfold InitializeDefaultConfig
  cases hf : JRConfig.Find s.configs "DEFAULT" with
  | some d =>
    exact ⟨rfl, d, hf, deref_of_mem s.configs d hwf (Find_mem s.configs "DEFAULT" d hf).1⟩
  | none =>
    refine ⟨rfl, { addr := fresh_addr s.configs s.default_config, chname := "DEFAULT",
                   rate := 5, time := 5 }, ?_, ?_⟩
    · exact Find_append_new s.configs "DEFAULT" "DEFAULT" _ hf rfl rfl
    · exact deref_append_fresh s.configs s.default_config _ rfl

/-- C13. Initialization sequencer: from a state that is not ready, with
distinct addresses and at most one stored policy named `DEFAULT`, `OnPostInit`
ends ready with exactly one policy named `DEFAULT`, to which `default_config`
points: a stored `DEFAULT` is kept, the store unchanged; without one a policy
`DEFAULT` with rate 5 and window 5 is appended.  The buckets are untouched, and
`OnPostInit` in a ready state returns the state as it is. -/
theorem initialization_sequencer (s : State) (hnr : s.ready = false)
    (hwf : distinct_addrs s) (hone : count_key s.configs "DEFAULT" ≤ 1) :
    Ready (OnPostInit s) ∧ count_key (OnPostInit s).configs "DEFAULT" = 1
      ∧ (∀ d, JRConfig.Find s.configs "DEFAULT" = some d →
          (OnPostInit s).configs = s.configs
            ∧ deref (OnPostInit s).configs (OnPostInit s).default_config = .ok d)
      ∧ (JRConfig.Find s.configs "DEFAULT" = none →
          ∃ a, (OnPostInit s).configs
                = s.configs ++ [{ addr := a, chname := "DEFAULT", rate := 5, time := 5 }]
            ∧ deref (OnPostInit s).configs (OnPostInit s).default_config
                = .ok { addr := a, chname := "DEFAULT", rate := 5, time := 5 })
      ∧ (OnPostInit s).buckets = s.buckets
      ∧ (∀ s1 : State, s1.ready = true → OnPostInit s1 = s1) := by
  have hpi : OnPostInit s = InitializeDefaultConfig s := by
    simp [OnPostInit, hnr]
  rw [hpi]
  refine ⟨InitializeDefaultConfig_ready s hwf, ?_, ?_, ?_, ?_, ?_⟩
  · unfold InitializeDefaultConfig count_key
    cases hf : JRConfig.Find s.configs "DEFAULT" with
    | some d =>
      obtain ⟨hm, hn⟩ := Find_mem s.configs "DEFAULT" d hf
      have : 0 < s.configs.countP (fun config => equals_ci config.chname "DEFAULT") :=
        List.countP_pos_iff.mpr ⟨d, hm, hn⟩
      unfold count_key at hone
      simp only []
      omega
    | none =>
      have h0 : s.configs.countP (fun config => equals_ci config.chname "DEFAULT") = 0 := by
        rw [List.countP_eq_zero]
        intro x hx
        unfold JRConfig.Find at hf
        rw [List.find?_eq_none] at hf
        exact hf x hx
      have hd : equals_ci "DEFAULT" "DEFAULT" = true := by decide
      simp [List.countP_append, h0, List.countP_cons, hd]
  · intro d hf
    have hcfg : (InitializeDefaultConfig s).configs = s.configs := by
      unfold InitializeDefaultConfig; rw [hf]
    have hdc : (InitializeDefaultConfig s).default_config = some d.addr := by
      unfold InitializeDefaultConfig; rw [hf]
    rw [hcfg, hdc]
    exact ⟨rfl, deref_of_mem s.configs d hwf (Find_mem s.configs "DEFAULT" d hf).1⟩
  · intro hf
    have hcfg : (InitializeDefaultConfig s).configs
        = s.configs ++ [{ addr := fresh_addr s.configs s.default_config, chname := "DEFAULT",
                          rate := 5, time := 5 }] := by
      unfold InitializeDefaultConfig; rw [hf]
    have hdc : (InitializeDefaultConfig s).default_config
        = some (fresh_addr s.configs s.default_config) := by
      unfold InitializeDefaultConfig; rw [hf]
    rw [hcfg, hdc]
    exact ⟨fresh_addr s.configs s.default_config, rfl,
      deref_append_fresh s.configs s.default_config
        { addr := fresh_addr s.configs s.default_config, chname := "DEFAULT",
          rate := 5, time := 5 } rfl⟩
  · rw [← hpi]; exact OnPostInit_buckets s
  · intro s1 h1
    simp [OnPostInit, h1]

/-- C13 at a concrete input: the module constructed before the server is
synced, on a database that holds only the override `#chan` 10/5. -/
theorem initialization_sequencer_witness :
    Ready (OnPostInit (ModuleJoinRate
        [{ addr := 7, chname := "#chan", rate := 10, time := 5 }] (some false)))
      ∧ count_key (OnPostInit (ModuleJoinRate
          [{ addr := 7, chname := "#chan", rate := 10, time := 5 }] (some false))).configs
          "DEFAULT" = 1 :=
  ⟨(initialization_sequencer
      (ModuleJoinRate [{ addr := 7, chname := "#chan", rate := 10, time := 5 }] (some false))
      (by decide) (by decide) (by decide)).1,
   (initialization_sequencer
      (ModuleJoinRate [{ addr := 7, chname := "#chan", rate := 10, time := 5 }] (some false))
      (by decide) (by decide) (by decide)).2.1⟩

/-! ## Refill when the clock has gone back -/

theorem tdiv_of_nonpos (a b : Int) (ha : a ≤ 0) (hb : 0 < b) : a.tdiv b = -((-a) / b) := by
  have h1 : a = -(-a) := by omega
  rw [h1, Int.neg_tdiv, Int.tdiv_eq_ediv (by omega) (by omega)]
  simp

/-- C14, the claim as stated fails: under `DEFAULT` 5/5 a bucket with 3 tokens,
last used at time 100, sees a join at time 90; the refill adds
`(-10 * 5) / 5 = -10`, the tokens before the final `if` are -7, not
`min 3 5 = 3`, and the join warns where an unchanged count would admit. -/
theorem clock_regression_lowers_tokens :
    refill builtin_default { tokens := 3, last_join_time := 100, last_warn_time := 0 } 90 = -7
    ∧ OnJoinChannel (with_bucket { tokens := 3, last_join_time := 100, last_warn_time := 0 })
        90 (arrival "#chan")
      = .ok (with_bucket { tokens := -7, last_join_time := 90, last_warn_time := 90 },
             .Warn) := by
  constructor <;> decide

/-- C14, amended. Clock regression is not clamped: under an enabled policy
(rate at least 0, window above 0), for a bucket with initialised tokens in the
`int` range and a join at a time `now` before the bucket's last join, the
refill adds the quotient of the negative `(now - last) * rate` by the window,
rounded toward zero: with `back = floor((last - now) * rate / window)`, which
is at least 0, the tokens after refill and clamp are `min rate (tokens - back)`
as long as `tokens - back` is not below `-2^31`.  They are `min tokens rate`
when `(last - now) * rate` is below the window. -/
theorem clock_regression_refill (cn : JRConfig) (b : JRBucket) (now : Int)
    (hr : 0 ≤ cn.rate) (hw : 0 < cn.time) (hinit : b.tokens ≠ -1)
    (hback : now < b.last_join_time) (hint : b.tokens < 2147483648)
    (hfit : -2147483648 ≤ b.tokens - ((b.last_join_time - now) * cn.rate) / cn.time) :
    0 ≤ ((b.last_join_time - now) * cn.rate) / cn.time
      ∧ refill cn b now
          = min cn.rate (b.tokens - ((b.last_join_time - now) * cn.rate) / cn.time)
      ∧ ((b.last_join_time - now) * cn.rate < cn.time →
          refill cn b now = min b.tokens cn.rate) := by
  have hprod : 0 ≤ (b.last_join_time - now) * cn.rate := mul_nonneg (by omega) hr
  have hq0 : 0 ≤ ((b.last_join_time - now) * cn.rate) / cn.time :=
    Int.ediv_nonneg hprod (by omega)
  have hneg : (now - b.last_join_time) * cn.rate = -((b.last_join_time - now) * cn.rate) := by
    ring
  have hq : ((now - b.last_join_time) * cn.rate).tdiv cn.time
      = -(((b.last_join_time - now) * cn.rate) / cn.time) := by
    rw [tdiv_of_nonpos _ _ (by rw [hneg]; omega) hw, hneg, neg_neg]
  have hmain : refill cn b now
      = min cn.rate (b.tokens - ((b.last_join_time - now) * cn.rate) / cn.time) := by
    unfold refill
    simp only [if_neg hinit, hq]
    generalize ((b.last_join_time - now) * cn.rate) / cn.time = q at hfit hq0
    rw [wrap32_id _ (by omega) (by omega)]
    split <;> omega
  refine ⟨hq0, hmain, ?_⟩
  intro hsmall
  have hz : ((b.last_join_time - now) * cn.rate) / cn.time = 0 :=
    Int.ediv_eq_zero_of_lt hprod hsmall
  rw [hmain, hz]
  omega

/-- C14 amended, at a concrete input: rate 5, window 5, 3 tokens, last join at
time 100, join at time 90. -/
theorem clock_regression_refill_witness :
    0 ≤ (((100 : Int) - 90) * 5) / 5
      ∧ refill builtin_default { tokens := 3, last_join_time := 100, last_warn_time := 0 } 90
          = min 5 (3 - ((100 - 90) * 5) / 5)
      ∧ (((100 : Int) - 90) * 5 < 5 →
          refill builtin_default { tokens := 3, last_join_time := 100, last_warn_time := 0 } 90
            = min 3 5) :=
  clock_regression_refill builtin_default
    { tokens := 3, last_join_time := 100, last_warn_time := 0 } 90
    (by decide) (by decide) (by decide) (by decide) (by decide) (by decide)

/-! ## The shapes of a step -/

/-- The three outcomes of `SetRate` on any parameter list: turned down, reset,
or set. -/
theorem SetRate_cases (cv : String → Option Int) (s : State) (params : List String) :
    (SetRate cv s params).1 = s
    ∨ (SetRate cv s params).1
        = { s with configs := configs_after_reset s (params.getD 1 ""),
                   buckets := invalidate s.buckets (JRBucket.Find s.buckets (params.getD 1 "")) }
    ∨ ∃ r w, (SetRate cv s params).1
        = { s with configs := configs_after_set s (params.getD 1 "") r w,
                   buckets := invalidate s.buckets (JRBucket.Find s.buckets (params.getD 1 "")) } := by
  unfold SetRate
  simp only []
  split
  · exact Or.inr (Or.inl rfl)
  · split
    · exact Or.inl rfl
    · split
      · rename_i r w _ _
        exact Or.inr (Or.inr ⟨r, w, rfl⟩)
      · exact Or.inl rfl

theorem GetRate_state {s s1 : State} {params : List String} {r : Reply}
    (h : GetRate s params = .ok (s1, r)) : s1 = s := by
  unfold GetRate at h
  simp only [] at h
  split at h
  · split at h
    · exact absurd h (by simp)
    · simp only [Except.ok.injEq, Prod.mk.injEq] at h
      exact h.1.symm
  · simp only [Except.ok.injEq, Prod.mk.injEq] at h
    exact h.1.symm

theorem Execute_cases_SET (cv : String → Option Int) (s s1 : State) (params : List String)
    (r : Reply) (h : Execute cv s params = .ok (s1, r)) :
    s1 = s ∨ (equals_ci (params.getD 0 "") "SET" = true ∧ s1 = (SetRate cv s params).1) := by
  unfold Execute at h
  split at h
  · simp only [Except.ok.injEq, Prod.mk.injEq] at h
    exact Or.inl h.1.symm
  · split at h
    · exact Or.inl (GetRate_state h)
    · split at h
      · rename_i hset
        simp only [Bool.and_eq_true] at hset
        simp only [Except.ok.injEq] at h
        exact Or.inr ⟨hset.1, by rw [h]⟩
      · simp only [Except.ok.injEq, Prod.mk.injEq] at h
        exact Or.inl h.1.symm

/-! ## Policies in force for other names under `SET` -/

theorem resolve_lower (s : State) (a b : String) (h : lower a = lower b) :
    resolve s a = resolve s b := by
  have : JRConfig.Find s.configs a = JRConfig.Find s.configs b := by
    simp only [JRConfig.Find, equals_ci, h]
  simp only [resolve, this]

theorem Find_after_set_other2 (s : State) (key k : String) (r w : Int)
    (hwf : distinct_addrs s) (hk : equals_ci k key = false) :
    JRConfig.Find (configs_after_set s key r w) k = JRConfig.Find s.configs k := by
  unfold configs_after_set
  cases hf : JRConfig.Find s.configs key with
  | none => exact Find_append_other s.configs _ k (by rw [equals_ci_comm]; exact hk)
  | some jc =>
    obtain ⟨hmem, hname⟩ := Find_mem s.configs key jc hf
    apply Find_assign_other s.configs jc.addr key k r w _ hk
    intro x hx hxa
    have : x = jc := same_addr_eq s hwf x jc hx hmem hxa
    rw [this]; exact hname

theorem Find_after_reset_other (s : State) (key k : String)
    (hwf : distinct_addrs s) (hk : equals_ci k key = false) :
    JRConfig.Find (configs_after_reset s key) k = JRConfig.Find s.configs k := by
  unfold configs_after_reset
  cases hf : JRConfig.Find s.configs key with
  | none => rfl
  | some jc => exact Find_destroy_other s key k jc hwf hf hk

theorem find_map_addr (cs : List JRConfig) (a0 : Nat) (f : JRConfig → JRConfig)
    (hf : ∀ x, (f x).addr = x.addr) :
    (cs.map f).find? (fun config => config.addr == a0)
      = (cs.find? (fun config => config.addr == a0)).map f := by
  induction cs with
  | nil => rfl
  | cons x xs ih =>
    simp only [List.map_cons, List.find?_cons, hf]
    cases x.addr == a0
    · exact ih
    · rfl

theorem deref_assign_other (cs : List JRConfig) (a : Nat) (key : String) (r w : Int)
    (p : Option Nat) (d : JRConfig) (hd : deref cs p = .ok d) (hne : d.addr ≠ a) :
    deref (JRConfig.assign cs a key r w) p = .ok d := by
  cases p with
  | none => simp [deref] at hd
  | some a0 =>
    simp only [deref] at hd ⊢
    cases hfa : cs.find? (fun config => config.addr == a0) with
    | none => rw [hfa] at hd; simp at hd
    | some d2 =>
      rw [hfa] at hd
      simp only [Except.ok.injEq] at hd
      subst hd
      unfold JRConfig.assign
      rw [find_map_addr cs a0 _ (by intro x; split <;> rfl), hfa]
      simp [hne]

theorem deref_append (cs : List JRConfig) (c : JRConfig) (p : Option Nat) (d : JRConfig)
    (hd : deref cs p = .ok d) : deref (cs ++ [c]) p = .ok d := by
  cases p with
  | none => simp [deref] at hd
  | some a0 =>
    simp only [deref] at hd ⊢
    cases hfa : cs.find? (fun config => config.addr == a0) with
    | none => rw [hfa] at hd; simp at hd
    | some d2 =>
      rw [hfa] at hd
      rw [List.find?_append, hfa]
      exact hd

/-- The policy `default_config` points to is not the one found for a key other
than `DEFAULT`. -/
theorem default_addr_ne (s : State) (key : String) (d jc : JRConfig)
    (hkey : equals_ci key "DEFAULT" = false) (hwf : distinct_addrs s)
    (hd : JRConfig.Find s.configs "DEFAULT" = some d)
    (hf : JRConfig.Find s.configs key = some jc) : d.addr ≠ jc.addr := by
  obtain ⟨hjm, hjn⟩ := Find_mem s.configs key jc hf
  obtain ⟨hdm, hdn⟩ := Find_mem s.configs "DEFAULT" d hd
  intro h
  have := same_addr_eq s hwf d jc hdm hjm h
  rw [this] at hdn
  rw [equals_ci_iff] at hdn hjn
  have hk : equals_ci key "DEFAULT" = true := by rw [equals_ci_iff, ← hjn, hdn]
  rw [hk] at hkey
  exact absurd hkey (by simp)

theorem deref_after_set (s : State) (key : String) (r w : Int) (d : JRConfig)
    (hkey : equals_ci key "DEFAULT" = false) (hwf : distinct_addrs s)
    (hd : JRConfig.Find s.configs "DEFAULT" = some d)
    (hderef : deref s.configs s.default_config = .ok d) :
    deref (configs_after_set s key r w) s.default_config = .ok d := by
  unfold configs_after_set
  cases hf : JRConfig.Find s.configs key with
  | none => exact deref_append s.configs _ _ d hderef
  | some jc =>
    exact deref_assign_other s.configs jc.addr key r w _ d hderef
      (default_addr_ne s key d jc hkey hwf hd hf)

theorem deref_after_reset (s : State) (key : String) (d : JRConfig)
    (hkey : equals_ci key "DEFAULT" = false) (hwf : distinct_addrs s)
    (hd : JRConfig.Find s.configs "DEFAULT" = some d)
    (hderef : deref s.configs s.default_config = .ok d) :
    deref (configs_after_reset s key) s.default_config = .ok d := by
  unfold configs_after_reset
  cases hf : JRConfig.Find s.configs key with
  | none => exact hderef
  | some jc =>
    exact deref_destroy_other s jc d _ hwf hderef (default_addr_ne s key d jc hkey hwf hd hf)

/-- A `SET` on a key other than `DEFAULT`, whatever its outcome, keeps the
state ready, keeps the policy in force and the bucket of every other name, and
leaves a bucket of its own key, if the state has changed at all,
uninitialised. -/
theorem SetRate_other_key (cv : String → Option Int) (s : State) (params : List String)
    (hkey : equals_ci (params.getD 1 "") "DEFAULT" = false) (hready : Ready s)
    (hwf : distinct_addrs s) :
    Ready (SetRate cv s params).1
    ∧ (∀ name, lower name ≠ lower (params.getD 1 "") →
        resolve (SetRate cv s params).1 name = resolve s name
          ∧ JRBucket.Find (SetRate cv s params).1.buckets name = JRBucket.Find s.buckets name)
    ∧ ((SetRate cv s params).1 = s ∨
        ∀ name e, lower name = lower (params.getD 1 "") →
          JRBucket.Find (SetRate cv s params).1.buckets name = some e → e.2.tokens = -1) := by
  obtain ⟨hflag, d, hd, hderef⟩ := hready
  have hdk : equals_ci "DEFAULT" (params.getD 1 "") = false := by
    rw [equals_ci_comm]; exact hkey
  have hinv : ∀ name e, lower name = lower (params.getD 1 "") →
      JRBucket.Find (invalidate s.buckets (JRBucket.Find s.buckets (params.getD 1 ""))) name
        = some e → e.2.tokens = -1 := by
    intro name e hn he
    cases hb : JRBucket.Find s.buckets name with
    | none =>
      rw [← Find_lower s.buckets name _ hn, hb] at he
      simp only [invalidate] at he
      rw [hb] at he
      exact absurd he (by simp)
    | some e0 =>
      rw [invalidate_find_same s.buckets _ name e0 hn hb] at he
      simp only [Option.some.injEq] at he
      rw [← he]; rfl
  have hother : ∀ name, lower name ≠ lower (params.getD 1 "") →
      equals_ci name (params.getD 1 "") = false := by
    intro name hn
    cases h : equals_ci name (params.getD 1 "") with
    | false => rfl
    | true => exact absurd ((equals_ci_iff _ _).mp h) hn
  rcases SetRate_cases cv s params with h | h | ⟨r, w, h⟩
  · rw [h]
    exact ⟨⟨hflag, d, hd, hderef⟩, fun _ _ => ⟨rfl, rfl⟩, Or.inl rfl⟩
  · rw [h]
    refine ⟨⟨hflag, d, ?_, deref_after_reset s _ d hkey hwf hd hderef⟩, ?_, Or.inr hinv⟩
    · show JRConfig.Find (configs_after_reset s _) "DEFAULT" = some d
      rw [Find_after_reset_other s _ "DEFAULT" hwf hdk]; exact hd
    · intro name hn
      refine ⟨?_, invalidate_find_ne s.buckets _ name hn⟩
      show (match JRConfig.Find (configs_after_reset s _) name with
        | some cn => Except.ok cn
        | none => deref (configs_after_reset s _) s.default_config) = resolve s name
      rw [Find_after_reset_other s _ name hwf (hother name hn),
        deref_after_reset s _ d hkey hwf hd hderef]
      simp only [resolve, hderef]
  · rw [h]
    refine ⟨⟨hflag, d, ?_, deref_after_set s _ r w d hkey hwf hd hderef⟩, ?_, Or.inr hinv⟩
    · show JRConfig.Find (configs_after_set s _ r w) "DEFAULT" = some d
      rw [Find_after_set_other2 s _ "DEFAULT" r w hwf hdk]; exact hd
    · intro name hn
      refine ⟨?_, invalidate_find_ne s.buckets _ name hn⟩
      show (match JRConfig.Find (configs_after_set s _ r w) name with
        | some cn => Except.ok cn
        | none => deref (configs_after_set s _ r w) s.default_config) = resolve s name
      rw [Find_after_set_other2 s _ name r w hwf (hother name hn),
        deref_after_set s _ r w d hkey hwf hd hderef]
      simp only [resolve, hderef]

/-! ## Every stored bucket is found under its key -/

theorem keyed_write (bs : List (String × JRBucket)) (k : String) (b : JRBucket)
    (hk : lower k = k) (h : ∀ e ∈ bs, JRBucket.Find bs e.1 = some e) :
    ∀ e ∈ JRBucket.write bs k b, JRBucket.Find (JRBucket.write bs k b) e.1 = some e := by
  intro e1 he1
  unfold JRBucket.write at he1
  rw [List.mem_map] at he1
  obtain ⟨e, he, hee⟩ := he1
  have hfe := h e he
  have hle : lower e.1 = e.1 := (Find_key bs e.1 e hfe).symm
  by_cases hek : e.1 = k
  · have : e1 = (k, b) := by rw [← hee]; simp [hek]
    rw [this]
    simp only [JRBucket.Find, hk]
    apply find_write_self bs k b e
    have := hfe
    simp only [JRBucket.Find, hek, hk] at this
    exact this
  · have : e1 = e := by rw [← hee]; simp [hek]
    rw [this]
    simp only [JRBucket.Find, hle]
    rw [find_write_ne bs k e.1 b hek]
    have := hfe
    simp only [JRBucket.Find, hle] at this
    exact this

theorem keyed_insert (bs : List (String × JRBucket)) (c : String) (b : JRBucket)
    (hc : lower c = c) (h : ∀ e ∈ bs, JRBucket.Find bs e.1 = some e) :
    ∀ e ∈ JRBucket.insert bs c b, JRBucket.Find (JRBucket.insert bs c b) e.1 = some e := by
  unfold JRBucket.insert
  split
  · exact keyed_write bs c b hc h
  · rename_i hany
    intro e he
    rcases List.mem_cons.mp he with rfl | he
    · simp [JRBucket.Find, hc, List.find?_cons]
    · have hfe := h e he
      have hle : lower e.1 = e.1 := (Find_key bs e.1 e hfe).symm
      have hne : (c == e.1) = false := by
        cases hce : (c == e.1) with
        | false => rfl
        | true =>
          exfalso
          apply hany
          rw [List.any_eq_true]
          have : c = e.1 := by simpa using hce
          exact ⟨e, he, by simp [this]⟩
      simp only [JRBucket.Find, hle, List.find?_cons, hne]
      have := hfe
      simp only [JRBucket.Find, hle] at this
      exact this

theorem keyed_joined (s : State) (name : String) (cn : JRConfig) (t : Int) (h : keyed s) :
    keyed (joined s name cn t) := by
  unfold keyed joined
  apply keyed_write _ _ _ (lower_lower name)
  simp only [JRBucket.FindOrCreate]
  cases JRBucket.Find s.buckets (lower name) with
  | some e => exact h
  | none => exact keyed_insert s.buckets (lower name) _ (lower_lower name) h

theorem keyed_invalidate (bs : List (String × JRBucket)) (p1 : String)
    (h : ∀ e ∈ bs, JRBucket.Find bs e.1 = some e) :
    ∀ e ∈ invalidate bs (JRBucket.Find bs p1),
      JRBucket.Find (invalidate bs (JRBucket.Find bs p1)) e.1 = some e := by
  cases hf : JRBucket.Find bs p1 with
  | none => exact h
  | some e0 =>
    have hk : lower e0.1 = e0.1 := by
      rw [Find_key bs p1 e0 hf, lower_lower]
    exact keyed_write bs e0.1 _ hk h

/-- The shapes of a step that completes. -/
theorem step_cases (cv : String → Option Int) (s s1 : State) (e : Event)
    (h : step cv s e = .ok s1) :
    s1 = s
    ∨ (∃ t ev n cn, e = .join t ev ∧ ev.c = some n ∧ resolve s n = .ok cn
        ∧ ¬ (cn.rate < 0 ∨ cn.time < 0) ∧ cn.time ≠ 0 ∧ s1 = joined s n cn t)
    ∨ (∃ params, e = .command params ∧ equals_ci (params.getD 0 "") "SET" = true
        ∧ s1 = (SetRate cv s params).1)
    ∨ (e = .post_init ∧ s1 = OnPostInit s) := by
  cases e with
  | join t ev =>
    simp only [step] at h
    cases hj : OnJoinChannel s t ev with
    | error f => rw [hj] at h; exact absurd h (by simp [Except.map])
    | ok r =>
      rw [hj] at h
      simp only [Except.map, Except.ok.injEq] at h
      subst h
      rcases OnJoinChannel_cases s t ev r.1 r.2 hj with ⟨hs, _⟩ | ⟨n, cn, hn, hres, h1, h2, hs, _⟩
      · exact Or.inl hs
      · exact Or.inr (Or.inl ⟨t, ev, n, cn, rfl, hn, hres, h1, h2, hs⟩)
  | command params =>
    simp only [step] at h
    cases hx : Execute cv s params with
    | error f => rw [hx] at h; exact absurd h (by simp [Except.map])
    | ok r =>
      rw [hx] at h
      simp only [Except.map, Except.ok.injEq] at h
      subst h
      rcases Execute_cases_SET cv s r.1 params r.2 hx with hs | ⟨h0, hs⟩
      · exact Or.inl hs
      · exact Or.inr (Or.inr (Or.inl ⟨params, rfl, h0, hs⟩))
  | post_init =>
    simp only [step, Except.ok.injEq] at h
    exact Or.inr (Or.inr (Or.inr ⟨rfl, h.symm⟩))

theorem keyed_step (cv : String → Option Int) (s s1 : State) (e : Event)
    (hstep : step cv s e = .ok s1) (h : keyed s) : keyed s1 := by
  rcases step_cases cv s s1 e hstep with hs | ⟨t, ev, n, cn, -, -, -, -, -, hs⟩
    | ⟨params, -, -, hs⟩ | ⟨-, hs⟩
  · rw [hs]; exact h
  · rw [hs]; exact keyed_joined s n cn t h
  · rw [hs]
    unfold keyed
    rcases SetRate_buckets cv s params with hb | hb
    · rw [hb]; exact h
    · rw [hb]; exact keyed_invalidate s.buckets _ h
  · rw [hs]
    unfold keyed
    rw [OnPostInit_buckets]; exact h

/-! ## Tokens stay within the rate in force -/

theorem bucket_inv_step (cv : String → Option Int) (s s1 : State) (e : Event)
    (hstep : step cv s e = .ok s1) (hnd : sets_default e = false)
    (hready : Ready s) (hwf : distinct_addrs s) (h : bucket_inv s) :
    Ready s1 ∧ bucket_inv s1 := by
  rcases step_cases cv s s1 e hstep with hs | ⟨t, ev, n, cn, -, -, hres, -, -, hs⟩
    | ⟨params, he, h0, hs⟩ | ⟨-, hs⟩
  · rw [hs]; exact ⟨hready, h⟩
  · rw [hs]
    refine ⟨hready, ?_⟩
    intro name entry hf hne
    by_cases hk : lower name = lower n
    · rw [Find_lower _ name n hk, joined_find] at hf
      simp only [Option.some.injEq] at hf
      refine ⟨cn, ?_, ?_⟩
      · rw [resolve_congr s (joined s n cn t) name rfl rfl, resolve_lower s name n hk, hres]
      · rw [← hf]; exact on_join_tokens_le cn _ t
    · rw [joined_find_ne s n cn t name hk] at hf
      obtain ⟨c2, hc2, hle⟩ := h name entry hf hne
      exact ⟨c2, by rw [resolve_congr s (joined s n cn t) name rfl rfl, hc2], hle⟩
  · have hkey : equals_ci (params.getD 1 "") "DEFAULT" = false := by
      rw [he] at hnd
      simp only [sets_default, h0, Bool.true_and] at hnd
      exact hnd
    obtain ⟨hr1, hoth, hown⟩ := SetRate_other_key cv s params hkey hready hwf
    rw [hs]
    refine ⟨hr1, ?_⟩
    rcases hown with hsame | hown
    · rw [hsame]; exact h
    · intro name entry hf hne
      by_cases hk : lower name = lower (params.getD 1 "")
      · exact absurd (hown name entry hk hf) hne
      · obtain ⟨hres, hbk⟩ := hoth name hk
        rw [hbk] at hf
        obtain ⟨c2, hc2, hle⟩ := h name entry hf hne
        exact ⟨c2, by rw [hres, hc2], hle⟩
  · have : OnPostInit s = s := by simp [OnPostInit, hready.1]
    rw [hs, this]; exact ⟨hready, h⟩

theorem bucket_inv_run (cv : String → Option Int) (evs : List Event) (s s1 : State)
    (hrun : run cv s evs = .ok s1) (hnd : ∀ e ∈ evs, sets_default e = false)
    (hready : Ready s) (hwf : distinct_addrs s) (hk : keyed s) (h : bucket_inv s) :
    Ready s1 ∧ keyed s1 ∧ bucket_inv s1 := by
  induction evs generalizing s with
  | nil =>
    simp only [run, Except.ok.injEq] at hrun
    subst hrun; exact ⟨hready, hk, h⟩
  | cons e es ih =>
    simp only [run] at hrun
    cases hs : step cv s e with
    | error f => rw [hs] at hrun; exact absurd hrun (by simp)
    | ok s2 =>
      rw [hs] at hrun
      obtain ⟨hr2, hb2⟩ := bucket_inv_step cv s s2 e hs (hnd e (List.mem_cons_self e es))
        hready hwf h
      exact ih s2 hrun (fun x hx => hnd x (List.mem_cons_of_mem e hx)) hr2
        (distinct_addrs_step cv s s2 e hs hwf) (keyed_step cv s s2 e hs hk) hb2

/-- C15, the claim as stated fails: in the start-up state (`DEFAULT` 5/5) a
join creates the bucket of `#chan` and leaves 4 tokens; `SET DEFAULT 1 5` then
changes the policy in force for `#chan` to rate 1 and invalidates only a
bucket named `default`: the bucket of `#chan` holds 4 tokens against rate 1. -/
theorem default_change_leaves_stale_bucket :
    run convert_sample fresh_state
        [.join 100 (arrival "#chan"), .command ["SET", "DEFAULT", "1", "5"]]
      = .ok { configs := [{ addr := 1, chname := "DEFAULT", rate := 1, time := 5 }],
              default_config := some 1,
              buckets := [("#chan", { tokens := 4, last_join_time := 100,
                                      last_warn_time := 0 })],
              ready := true }
    ∧ resolve { configs := [{ addr := 1, chname := "DEFAULT", rate := 1, time := 5 }],
                default_config := some 1,
                buckets := [("#chan", { tokens := 4, last_join_time := 100,
                                        last_warn_time := 0 })],
                ready := true } "#chan"
      = .ok { addr := 1, chname := "DEFAULT", rate := 1, time := 5 } := by
  constructor <;> decide

/-- C15, amended. Bucket invariant: start in a ready state with distinct
addresses and no buckets, and run any sequence of joins (any channels, any
times, in any order), admin commands and `OnPostInit` calls that completes and
contains no `SET` whose key is `DEFAULT`.  Then every stored bucket whose
tokens are not -1 has at most as many tokens as the rate of the policy in
force for its key, the override if there is one and else `DEFAULT`. -/
theorem bucket_invariant (cv : String → Option Int) (s0 s : State) (evs : List Event)
    (hready : Ready s0) (hwf : distinct_addrs s0) (hempty : s0.buckets = [])
    (hnd : ∀ e ∈ evs, sets_default e = false) (hrun : run cv s0 evs = .ok s) :
    ∀ entry ∈ s.buckets, entry.2.tokens ≠ -1 →
      ∃ cn, resolve s entry.1 = .ok cn ∧ entry.2.tokens ≤ cn.rate := by
  have hk0 : keyed s0 := by
    unfold keyed; rw [hempty]; intro e he; simp at he
  have hb0 : bucket_inv s0 := by
    intro name entry hf
    simp [JRBucket.Find, hempty] at hf
  obtain ⟨-, hk, hb⟩ := bucket_inv_run cv evs s0 s hrun hnd hready hwf hk0 hb0
  intro entry he hne
  exact hb entry.1 entry (hk entry he) hne

/-- C15 amended, at a concrete input: from the start-up state, joins of `#chan`
and `#other` around `SET #chan 10 5` and `SET #other DEFAULT`. -/
theorem bucket_invariant_witness :
    run convert_sample fresh_state
        [.join 100 (arrival "#chan"), .command ["SET", "#chan", "10", "5"],
         .join 101 (arrival "#Chan"), .join 101 (arrival "#other"),
         .command ["SET", "#other", "DEFAULT"], .post_init, .command ["GET", "DEFAULT"]]
      = .ok two_buckets
    ∧ ∀ entry ∈ two_buckets.buckets, entry.2.tokens ≠ -1 →
        ∃ cn, resolve two_buckets entry.1 = .ok cn ∧ entry.2.tokens ≤ cn.rate :=
  ⟨by decide,
   bucket_invariant convert_sample fresh_state two_buckets
     [.join 100 (arrival "#chan"), .command ["SET", "#chan", "10", "5"],
      .join 101 (arrival "#Chan"), .join 101 (arrival "#other"),
      .command ["SET", "#other", "DEFAULT"], .post_init, .command ["GET", "DEFAULT"]]
     ⟨by decide, builtin_default, by decide, by decide⟩ (by decide) (by decide) (by decide)
     (by decide)⟩

/-! ## One policy per name -/

theorem refill_eq_spec (cn : JRConfig) (b : JRBucket) (now : Int)
    (hr : 0 ≤ cn.rate) (hw : 0 < cn.time) (ht : b.last_join_time ≤ now)
    (hint : -2147483648 ≤ b.tokens)
    (hfit : (if b.tokens = -1 then cn.rate else b.tokens)
        + ((now - b.last_join_time) * cn.rate) / cn.time < 2147483648) :
    refill cn b now
      = min cn.rate ((if b.tokens = -1 then cn.rate else b.tokens)
          + ((now - b.last_join_time) * cn.rate) / cn.time) := by
  have hq : ((now - b.last_join_time) * cn.rate).tdiv cn.time
      = ((now - b.last_join_time) * cn.rate) / cn.time :=
    Int.tdiv_eq_ediv (mul_nonneg (by omega) hr) (by omega)
  have hq0 : 0 ≤ ((now - b.last_join_time) * cn.rate) / cn.time :=
    Int.ediv_nonneg (mul_nonneg (by omega) hr) (by omega)
  unfold refill
  simp only [hq]
  generalize ((now - b.last_join_time) * cn.rate) / cn.time = q at hfit hq0
  have hseed : -2147483648 ≤ (if b.tokens = -1 then cn.rate else b.tokens) := by
    split <;> omega
  generalize (if b.tokens = -1 then cn.rate else b.tokens) = seed at hfit hseed
  rw [wrap32_id _ (by omega) hfit]
  split <;> omega

theorem on_join_eq_spec (cn : JRConfig) (b : JRBucket) (now : Int)
    (hr : 0 ≤ cn.rate) (hw : 0 < cn.time) (ht : b.last_join_time ≤ now)
    (hint : -2147483648 ≤ b.tokens)
    (hfit : (if b.tokens = -1 then cn.rate else b.tokens)
        + ((now - b.last_join_time) * cn.rate) / cn.time < 2147483648) :
    on_join cn b now = spec_on_arrival cn.rate cn.time b now := by
  unfold on_join spec_on_arrival
  rw [refill_eq_spec cn b now hr hw ht hint hfit]

theorem spec_on_arrival_times (rate window : Int) (b : JRBucket) (now : Int) :
    (spec_on_arrival rate window b now).1.last_join_time = now
      ∧ ((spec_on_arrival rate window b now).2 ≠ .Warn →
          (spec_on_arrival rate window b now).1.last_warn_time = b.last_warn_time) := by
  unfold spec_on_arrival
  simp only []
  generalize min rate ((if b.tokens = -1 then rate else b.tokens)
    + ((now - b.last_join_time) * rate) / window) = m
  by_cases h1 : m > 0
  · simp [h1]
  · by_cases h2 : now - b.last_warn_time ≥ 30
    · simp [h1, h2]
    · simp [h1, h2]

/-- C17, the claim as stated fails: under the policy 2147483647 joins in 1
second a bucket holds 5 tokens since time 100; at time 101 the spec's
algorithm gives `m = 2147483647`, an `Admit` and 2147483646 tokens, while in
the code the sum `5 + 2147483647` does not fit the `int` `tokens`, becomes
-2147483644, and the join is suppressed. -/
theorem arrival_step_overflows :
    OnJoinChannel huge_rate 101 (arrival "#chan")
      = .ok ({ huge_rate with buckets :=
                [("#chan", { tokens := -2147483644, last_join_time := 101,
                             last_warn_time := 100 })] }, .WarnSuppressedByPolicy)
    ∧ spec_on_arrival 2147483647 1
        { tokens := 5, last_join_time := 100, last_warn_time := 100 } 101
      = ({ tokens := 2147483646, last_join_time := 101, last_warn_time := 100 }, .Admit) := by
  constructor <;> decide

/-- C17, amended. Single-arrival step equals the spec's algorithm: under an
enabled policy (rate at least 0, window above 0), for the bucket the join works
on (the stored one with tokens not below `-2^31`, or a new one) and a time `now`
not before its last join, when `seed + floor((now - last) * rate / window)` is
below `2^31`, the join completes, decides as the spec's algorithm does and
stores the bucket the spec's algorithm computes: tokens `m - 1` and `Admit`
when `m > 0`, else tokens `m` with `Warn` and the warning time set to `now`
when `now - lastWarn >= 30` and `WarnSuppressedByPolicy` otherwise; the last
join time becomes `now` and the warning time changes only on `Warn`. -/
theorem arrival_step_equals_spec (s : State) (name : String) (cn : JRConfig) (now : Int)
    (hres : resolve s name = .ok cn) (hr : 0 ≤ cn.rate) (hw : 0 < cn.time)
    (ht : (bucket_of s name now).last_join_time ≤ now)
    (hint : -2147483648 ≤ (bucket_of s name now).tokens)
    (hfit : (if (bucket_of s name now).tokens = -1 then cn.rate
              else (bucket_of s name now).tokens)
        + ((now - (bucket_of s name now).last_join_time) * cn.rate) / cn.time
        < 2147483648) :
    ∃ s1, OnJoinChannel s now (arrival name)
        = .ok (s1, (spec_on_arrival cn.rate cn.time (bucket_of s name now) now).2)
      ∧ JRBucket.Find s1.buckets name
        = some (lower name, (spec_on_arrival cn.rate cn.time (bucket_of s name now) now).1)
      ∧ (spec_on_arrival cn.rate cn.time (bucket_of s name now) now).1.last_join_time = now
      ∧ ((spec_on_arrival cn.rate cn.time (bucket_of s name now) now).2 ≠ .Warn →
          (spec_on_arrival cn.rate cn.time (bucket_of s name now) now).1.last_warn_time
            = (bucket_of s name now).last_warn_time) := by
  have hspec := on_join_eq_spec cn (bucket_of s name now) now hr hw ht hint hfit
  refine ⟨joined s name cn now, ?_, ?_, ?_, ?_⟩
  · rw [OnJoinChannel_counted s now name cn hres (by omega) (by omega), hspec]
  · rw [joined_find, hspec]
  · exact (spec_on_arrival_times cn.rate cn.time _ now).1
  · exact (spec_on_arrival_times cn.rate cn.time _ now).2

/-- C17 amended, at a concrete input: `DEFAULT` 5/5, the bucket of `#chan`
holds 1 token since time 100, join at time 103. -/
theorem arrival_step_equals_spec_witness :
    ∃ s1, OnJoinChannel
        (with_bucket { tokens := 1, last_join_time := 100, last_warn_time := 0 })
        103 (arrival "#chan")
        = .ok (s1, (spec_on_arrival 5 5
            (bucket_of (with_bucket { tokens := 1, last_join_time := 100, last_warn_time := 0 })
              "#chan" 103) 103).2)
      ∧ JRBucket.Find s1.buckets "#chan"
        = some (lower "#chan", (spec_on_arrival 5 5
            (bucket_of (with_bucket { tokens := 1, last_join_time := 100, last_warn_time := 0 })
              "#chan" 103) 103).1)
      ∧ (spec_on_arrival 5 5
            (bucket_of (with_bucket { tokens := 1, last_join_time := 100, last_warn_time := 0 })
              "#chan" 103) 103).1.last_join_time = 103
      ∧ ((spec_on_arrival 5 5
            (bucket_of (with_bucket { tokens := 1, last_join_time := 100, last_warn_time := 0 })
              "#chan" 103) 103).2 ≠ .Warn →
          (spec_on_arrival 5 5
            (bucket_of (with_bucket { tokens := 1, last_join_time := 100, last_warn_time := 0 })
              "#chan" 103) 103).1.last_warn_time
            = (bucket_of
                (with_bucket { tokens := 1, last_join_time := 100, last_warn_time := 0 })
                "#chan" 103).last_warn_time) :=
  arrival_step_equals_spec
    (with_bucket { tokens := 1, last_join_time := 100, last_warn_time := 0 })
    "#chan" builtin_default 103 (by decide) (by decide) (by decide) (by decide) (by decide)
    (by decide)

/-! ## Counting admitted joins -/

theorem floor_add_le (a b w : Int) (hw : 0 < w) : a / w + b / w ≤ (a + b) / w := by
  apply Int.le_ediv_of_mul_le hw
  have h1 := Int.ediv_mul_le a (ne_of_gt hw)
  have h2 := Int.ediv_mul_le b (ne_of_gt hw)
  rw [add_mul]
  omega

theorem admitted_cons (p : Decision × Option Int) (ds : List (Decision × Option Int)) :
    (admitted (p :: ds) : Int) = (if p.1 = .Admit then 1 else 0) + admitted ds := by
  unfold admitted
  rw [List.countP_cons]
  split
  · simp_all; omega
  · simp_all

/-- One join on an initialised bucket with tokens between 0 and the rate, at a
time not before its last join and with no overflow: the tokens after it plus
one for an `Admit` are `min rate (tokens + floor(elapsed * rate / window))`. -/
theorem on_join_account (cn : JRConfig) (b : JRBucket) (t : Int)
    (hr : 0 ≤ cn.rate) (hw : 0 < cn.time) (hb0 : 0 ≤ b.tokens)
    (ht : b.last_join_time ≤ t)
    (hfit : b.tokens + ((t - b.last_join_time) * cn.rate) / cn.time < 2147483648) :
    (on_join cn b t).1.last_join_time = t
    ∧ 0 ≤ (on_join cn b t).1.tokens ∧ (on_join cn b t).1.tokens ≤ cn.rate
    ∧ (if (on_join cn b t).2 = .Admit then (1 : Int) else 0) + (on_join cn b t).1.tokens
        = min cn.rate (b.tokens + ((t - b.last_join_time) * cn.rate) / cn.time)
    ∧ ((on_join cn b t).2 = .Admit
        ↔ 0 < min cn.rate (b.tokens + ((t - b.last_join_time) * cn.rate) / cn.time)) := by
  have hne : b.tokens ≠ -1 := by omega
  have hq0 : 0 ≤ ((t - b.last_join_time) * cn.rate) / cn.time :=
    Int.ediv_nonneg (mul_nonneg (by omega) hr) (by omega)
  have hrf := refill_eq_spec cn b t hr hw ht (by omega) (by rw [if_neg hne]; exact hfit)
  rw [if_neg hne] at hrf
  unfold on_join
  simp only [hrf]
  generalize ((t - b.last_join_time) * cn.rate) / cn.time = q at hfit hq0
  by_cases h1 : min cn.rate (b.tokens + q) > 0
  · rw [if_pos h1]
    refine ⟨rfl, ?_, ?_, ?_, ?_⟩
    · show 0 ≤ min cn.rate (b.tokens + q) - 1
      omega
    · show min cn.rate (b.tokens + q) - 1 ≤ cn.rate
      omega
    · show (if Decision.Admit = Decision.Admit then (1 : Int) else 0)
        + (min cn.rate (b.tokens + q) - 1) = min cn.rate (b.tokens + q)
      rw [if_pos rfl]; omega
    · exact ⟨fun _ => h1, fun _ => rfl⟩
  · rw [if_neg h1]
    by_cases h2 : t - b.last_warn_time ≥ 30
    · rw [if_pos h2]
      refine ⟨rfl, ?_, ?_, ?_, ?_⟩
      · show 0 ≤ min cn.rate (b.tokens + q)
        omega
      · show min cn.rate (b.tokens + q) ≤ cn.rate
        omega
      · show (if Decision.Warn = Decision.Admit then (1 : Int) else 0)
          + min cn.rate (b.tokens + q) = min cn.rate (b.tokens + q)
        rw [if_neg (by decide)]; omega
      · exact ⟨fun h => Decision.noConfusion h, fun h => absurd h h1⟩
    · rw [if_neg h2]
      refine ⟨rfl, ?_, ?_, ?_, ?_⟩
      · show 0 ≤ min cn.rate (b.tokens + q)
        omega
      · show min cn.rate (b.tokens + q) ≤ cn.rate
        omega
      · show (if Decision.WarnSuppressedByPolicy = Decision.Admit then (1 : Int) else 0)
          + min cn.rate (b.tokens + q) = min cn.rate (b.tokens + q)
        rw [if_neg (by decide)]; omega
      · exact ⟨fun h => Decision.noConfusion h, fun h => absurd h h1⟩

/-- Joins at non-decreasing times none of which is after `T`, on an initialised
bucket: the admitted joins number at most the tokens held plus
`floor((T - last) * rate / window)`. -/
theorem trace_admits_le (cn : JRConfig) (T : Int) (hr : 0 ≤ cn.rate) (hw : 0 < cn.time)
    (ts : List Int) (b : JRBucket) (hb0 : 0 ≤ b.tokens) (hbr : b.tokens ≤ cn.rate)
    (hsorted : (b.last_join_time :: ts).Pairwise (fun x y => x ≤ y))
    (hT : ∀ t ∈ ts, t ≤ T) (hbT : b.last_join_time ≤ T)
    (hfit : cn.rate + ((T - b.last_join_time) * cn.rate) / cn.time < 2147483648) :
    (admitted (bucket_trace cn (some b) ts) : Int)
      ≤ b.tokens + ((T - b.last_join_time) * cn.rate) / cn.time := by
  induction ts generalizing b with
  | nil =>
    have : 0 ≤ ((T - b.last_join_time) * cn.rate) / cn.time :=
      Int.ediv_nonneg (mul_nonneg (by omega) hr) (by omega)
    simp only [bucket_trace, admitted, List.countP_nil, Nat.cast_zero]
    omega
  | cons t ts ih =>
    rw [List.pairwise_cons] at hsorted
    have hbt : b.last_join_time ≤ t := hsorted.1 t (List.mem_cons_self t ts)
    have htT : t ≤ T := hT t (List.mem_cons_self t ts)
    have hmono : ((t - b.last_join_time) * cn.rate) / cn.time
        + ((T - t) * cn.rate) / cn.time ≤ ((T - b.last_join_time) * cn.rate) / cn.time := by
      have := floor_add_le ((t - b.last_join_time) * cn.rate) ((T - t) * cn.rate) cn.time hw
      have he : (t - b.last_join_time) * cn.rate + (T - t) * cn.rate
          = (T - b.last_join_time) * cn.rate := by ring
      rw [he] at this
      exact this
    have hq0 : 0 ≤ ((t - b.last_join_time) * cn.rate) / cn.time :=
      Int.ediv_nonneg (mul_nonneg (by omega) hr) (by omega)
    have hq1 : 0 ≤ ((T - t) * cn.rate) / cn.time :=
      Int.ediv_nonneg (mul_nonneg (by omega) hr) (by omega)
    obtain ⟨hlj, h0, hrr, hacc, -⟩ := on_join_account cn b t hr hw hb0 hbt (by omega)
    have hsorted2 : ((on_join cn b t).1.last_join_time :: ts).Pairwise (fun x y => x ≤ y) := by
      rw [hlj]
      have := hsorted.2
      rw [List.pairwise_cons] at this ⊢
      exact this
    have ih1 := ih (on_join cn b t).1 h0 hrr hsorted2
      (fun x hx => hT x (List.mem_cons_of_mem t hx)) (by rw [hlj]; exact htT)
      (by rw [hlj]; omega)
    rw [hlj] at ih1
    simp only [bucket_trace, Option.getD_some]
    rw [admitted_cons]
    simp only []
    omega

/-- Joins that all come at the bucket's last join time: exactly as many are
admitted as there are joins or tokens, whichever is less. -/
theorem trace_same_time (cn : JRConfig) (hr : 0 ≤ cn.rate) (hw : 0 < cn.time)
    (hfit : cn.rate < 2147483648)
    (ts : List Int) (b : JRBucket) (hb0 : 0 ≤ b.tokens) (hbr : b.tokens ≤ cn.rate)
    (hsame : ∀ t ∈ ts, t = b.last_join_time) :
    (admitted (bucket_trace cn (some b) ts) : Int) = min (ts.length : Int) b.tokens := by
  induction ts generalizing b with
  | nil =>
    simp only [bucket_trace, admitted, List.countP_nil, Nat.cast_zero, List.length_nil]
    omega
  | cons t ts ih =>
    have ht : t = b.last_join_time := hsame t (List.mem_cons_self t ts)
    have hz : ((t - b.last_join_time) * cn.rate) / cn.time = 0 := by
      rw [ht]; simp
    obtain ⟨hlj, h0, hrr, hacc, hiff⟩ := on_join_account cn b t hr hw hb0 (by omega) (by omega)
    rw [hz] at hacc hiff
    have hm : min cn.rate (b.tokens + 0) = b.tokens := by
      rw [add_zero]; exact min_eq_right hbr
    rw [hm] at hacc hiff
    have ih1 := ih (on_join cn b t).1 h0 hrr
      (fun x hx => by rw [hlj, ht]; exact hsame x (List.mem_cons_of_mem t hx))
    simp only [bucket_trace, Option.getD_some]
    rw [admitted_cons]
    simp only [List.length_cons, Nat.cast_add, Nat.cast_one]
    by_cases hd : (on_join cn b t).2 = .Admit
    · rw [if_pos hd] at hacc ⊢
      omega
    · rw [if_neg hd] at hacc ⊢
      have : ¬ 0 < b.tokens := fun h => hd (hiff.mpr h)
      omega

theorem le_getLast (l : List Int) (hne : l ≠ []) (h : l.Pairwise (fun x y => x ≤ y)) :
    ∀ t ∈ l, t ≤ l.getLast hne := by
  induction l with
  | nil => exact absurd rfl hne
  | cons a l ih =>
    intro t ht
    by_cases hl : l = []
    · subst hl
      simp only [List.mem_singleton] at ht
      simp [ht]
    · rw [List.getLast_cons hl]
      rw [List.pairwise_cons] at h
      rcases List.mem_cons.mp ht with rfl | ht
      · exact h.1 _ (List.getLast_mem hl)
      · exact ih hl h.2 t ht

theorem on_join_new_bucket (cn : JRConfig) (t w0 : Int) :
    on_join cn { tokens := -1, last_join_time := t, last_warn_time := w0 } t
      = on_join cn { tokens := cn.rate, last_join_time := t, last_warn_time := w0 } t := by
  have : refill cn { tokens := -1, last_join_time := t, last_warn_time := w0 } t
      = refill cn { tokens := cn.rate, last_join_time := t, last_warn_time := w0 } t := by
    unfold refill
    simp only [if_true, ite_self]
  unfold on_join
  simp only [this]

/-- C18. The bucket never over-credits: under an enabled policy (rate `r` at
least 0, window `w` above 0), for a channel without a bucket and joins at
non-decreasing times `t1 <= ... <= tn` with `r + floor((tn - t1) * r / w)` below
`2^31`, so that the `int` arithmetic is that of unbounded integers, all joins
complete and at most `r + floor((tn - t1) * r / w)` of them are admitted; when
all joins share one timestamp exactly `min n r` are admitted. -/
theorem never_over_credits (s : State) (name : String) (cn : JRConfig) (t1 : Int)
    (rest : List Int) (hres : resolve s name = .ok cn) (hr : 0 ≤ cn.rate) (hw : 0 < cn.time)
    (hnb : JRBucket.Find s.buckets name = none)
    (hsorted : (t1 :: rest).Pairwise (fun x y => x ≤ y))
    (hfit : cn.rate
        + (((t1 :: rest).getLast (List.cons_ne_nil t1 rest) - t1) * cn.rate) / cn.time
        < 2147483648) :
    ∃ s1 ds, arrivals s name (t1 :: rest) = .ok (s1, ds)
      ∧ (admitted ds : Int)
          ≤ cn.rate
            + (((t1 :: rest).getLast (List.cons_ne_nil t1 rest) - t1) * cn.rate) / cn.time
      ∧ ((∀ t ∈ rest, t = t1) →
          (admitted ds : Int) = min ((rest.length : Int) + 1) cn.rate) := by
  have htr := arrivals_trace s name cn (t1 :: rest) hres (by omega) (by omega)
  rw [hnb] at htr
  cases hrun : arrivals s name (t1 :: rest) with
  | error f => rw [hrun] at htr; simp [Except.map] at htr
  | ok r =>
    obtain ⟨s1, ds⟩ := r
    rw [hrun] at htr
    simp only [Except.map, Except.ok.injEq, Option.map_none'] at htr
    refine ⟨s1, ds, rfl, ?_, ?_⟩
    all_goals
      rw [htr]
      simp only [bucket_trace, Option.getD_none]
      rw [on_join_new_bucket, admitted_cons]
      simp only []
    · have hT := le_getLast (t1 :: rest) (List.cons_ne_nil t1 rest) hsorted
      generalize (t1 :: rest).getLast (List.cons_ne_nil t1 rest) = T at hT hfit
      have ht1T : t1 ≤ T := hT t1 (List.mem_cons_self t1 rest)
      have hQ0 : 0 ≤ ((T - t1) * cn.rate) / cn.time :=
        Int.ediv_nonneg (mul_nonneg (by omega) hr) (by omega)
      obtain ⟨hlj, h0, hrr, hacc, -⟩ := on_join_account cn
        (JRBucket.mk cn.rate t1 0) t1 hr hw hr
        (le_refl t1) (by simp; omega)
      have hsorted2 : ((on_join cn (JRBucket.mk cn.rate t1 0) t1).1.last_join_time
          :: rest).Pairwise (fun x y => x ≤ y) := by
        rw [hlj]; exact hsorted
      have hle := trace_admits_le cn T hr hw rest _ h0 hrr hsorted2
        (fun x hx => hT x (List.mem_cons_of_mem t1 hx)) (by rw [hlj]; exact ht1T)
        (by rw [hlj]; exact hfit)
      rw [hlj] at hle
      simp only [sub_self, zero_mul, Int.zero_ediv, add_zero, min_self] at hacc
      omega
    · intro hsame
      have hfit0 : cn.rate < 2147483648 := by
        have hT := le_getLast (t1 :: rest) (List.cons_ne_nil t1 rest) hsorted
        generalize (t1 :: rest).getLast (List.cons_ne_nil t1 rest) = T at hT hfit
        have ht1T : t1 ≤ T := hT t1 (List.mem_cons_self t1 rest)
        have hQ0 : 0 ≤ ((T - t1) * cn.rate) / cn.time :=
          Int.ediv_nonneg (mul_nonneg (by omega) hr) (by omega)
        omega
      obtain ⟨hlj, h0, hrr, hacc, hiff⟩ := on_join_account cn
        (JRBucket.mk cn.rate t1 0) t1 hr hw hr
        (le_refl t1) (by simp; omega)
      have heq := trace_same_time cn hr hw hfit0 rest _ h0 hrr
        (fun x hx => by rw [hlj]; exact hsame x hx)
      simp only [sub_self, zero_mul, Int.zero_ediv, add_zero, min_self] at hacc hiff
      by_cases hd : (on_join cn (JRBucket.mk cn.rate t1 0) t1).2 = .Admit
      · rw [if_pos hd] at hacc ⊢
        omega
      · rw [if_neg hd] at hacc ⊢
        have : ¬ 0 < cn.rate := fun h => hd (hiff.mpr h)
        omega

/-- C18 at a concrete input: `DEFAULT` 5/5, channel `#chan` without a bucket,
joins at times 100, 100, 101, 103. -/
theorem never_over_credits_witness :
    ∃ s1 ds, arrivals fresh_state "#chan" [100, 100, 101, 103] = .ok (s1, ds)
      ∧ (admitted ds : Int)
          ≤ 5 + ((([100, 100, 101, 103] : List Int).getLast
                    (List.cons_ne_nil 100 [100, 101, 103]) - 100) * 5) / 5
      ∧ ((∀ t ∈ ([100, 101, 103] : List Int), t = 100) →
          (admitted ds : Int) = min ((([100, 101, 103] : List Int).length : Int) + 1) 5) :=
  never_over_credits fresh_state "#chan" builtin_default 100 [100, 101, 103]
    (by decide) (by decide) (by decide) (by decide) (by decide) (by decide)

/-! ## Tokens never go below the sentinel -/

theorem guards_passed (s : State) (t : Int) (ev : JoinEvent) (s1 : State) (d : Decision)
    (h : OnJoinChannel s t ev = .ok (s1, d)) (hd : d ≠ .Ignored) :
    ev.Me ≠ some false ∧ (ev.ulined || !ev.server_synced) = false := by
  unfold OnJoinChannel at h
  split at h
  · simp only [Except.ok.injEq, Prod.mk.injEq] at h
    exact absurd h.2.symm hd
  · split at h
    · simp only [Except.ok.injEq, Prod.mk.injEq] at h
      exact absurd h.2.symm hd
    · rename_i hme
      split at h
      · simp only [Except.ok.injEq, Prod.mk.injEq] at h
        exact absurd h.2.symm hd
      · rename_i hul
        exact ⟨hme, by simpa using hul⟩

/-- A counted join that fits leaves between 0 and `rate` tokens. -/
theorem on_join_fit (cn : JRConfig) (b : JRBucket) (t : Int)
    (hr : 0 ≤ cn.rate) (hw : 0 < cn.time) (hb : -1 ≤ b.tokens) (ht : b.last_join_time ≤ t)
    (hfit : (if b.tokens = -1 then cn.rate else b.tokens)
        + ((t - b.last_join_time) * cn.rate) / cn.time < 2147483648) :
    0 ≤ (on_join cn b t).1.tokens ∧ (on_join cn b t).1.tokens ≤ cn.rate := by
  refine ⟨?_, on_join_tokens_le cn b t⟩
  have hq0 : 0 ≤ ((t - b.last_join_time) * cn.rate) / cn.time :=
    Int.ediv_nonneg (mul_nonneg (by omega) hr) (by omega)
  have hrf := refill_eq_spec cn b t hr hw ht (by omega) hfit
  have hseed : 0 ≤ (if b.tokens = -1 then cn.rate else b.tokens) := by
    split <;> omega
  unfold on_join
  simp only [hrf]
  generalize ((t - b.last_join_time) * cn.rate) / cn.time = q at hfit hq0
  generalize (if b.tokens = -1 then cn.rate else b.tokens) = seed at hfit hseed
  by_cases h1 : min cn.rate (seed + q) > 0
  · rw [if_pos h1]
    show 0 ≤ min cn.rate (seed + q) - 1
    omega
  · rw [if_neg h1]
    split
    · show 0 ≤ min cn.rate (seed + q)
      omega
    · show 0 ≤ min cn.rate (seed + q)
      omega

theorem bucket_of_tokens_ge (s : State) (name : String) (t : Int) (h : tokens_ge s) :
    -1 ≤ (bucket_of s name t).tokens := by
  unfold bucket_of
  cases hf : JRBucket.Find s.buckets name with
  | none => simp
  | some e => exact h name e hf

/-- What `join_fits` says about a join that is counted. -/
theorem join_fits_counted (s : State) (t : Int) (ev : JoinEvent) (n : String) (cn : JRConfig)
    (hfit : join_fits s t ev = true) (hn : ev.c = some n)
    (hme : ev.Me ≠ some false) (hul : (ev.ulined || !ev.server_synced) = false)
    (hres : resolve s n = .ok cn) (hdis : ¬ (cn.rate < 0 ∨ cn.time < 0)) :
    (bucket_of s n t).last_join_time ≤ t
    ∧ (if (bucket_of s n t).tokens = -1 then cn.rate else (bucket_of s n t).tokens)
        + ((t - (bucket_of s n t).last_join_time) * cn.rate) / cn.time < 2147483648 := by
  unfold join_fits at hfit
  rw [hn] at hfit
  simp only [if_neg hme, hul, Bool.false_eq_true, if_false, hres, if_neg hdis,
    Bool.and_eq_true, decide_eq_true_eq] at hfit
  exact hfit

theorem invalidate_find_own (bs : List (String × JRBucket)) (p1 name : String)
    (e : String × JRBucket) (hn : lower name = lower p1)
    (he : JRBucket.Find (invalidate bs (JRBucket.Find bs p1)) name = some e) :
    e.2.tokens = -1 := by
  cases hb : JRBucket.Find bs name with
  | none =>
    rw [← Find_lower bs name _ hn, hb] at he
    simp only [invalidate] at he
    rw [hb] at he
    exact absurd he (by simp)
  | some e0 =>
    rw [invalidate_find_same bs _ name e0 hn hb] at he
    simp only [Option.some.injEq] at he
    rw [← he]; rfl

/-- A join that fits, in a state without tokens below -1, is either not
counted and changes nothing, or leaves the channel's bucket with between 0 and
`rate` tokens. -/
theorem join_step_fit (s : State) (t : Int) (ev : JoinEvent) (s1 : State) (d : Decision)
    (h : OnJoinChannel s t ev = .ok (s1, d)) (hfit : join_fits s t ev = true)
    (hinv : tokens_ge s) :
    (s1 = s ∧ (d = .Ignored ∨ d = .AdmitSilently))
    ∨ ∃ n cn, ev.c = some n ∧ resolve s n = .ok cn ∧ s1 = joined s n cn t
        ∧ d = (on_join cn (bucket_of s n t) t).2
        ∧ 0 ≤ (on_join cn (bucket_of s n t) t).1.tokens
        ∧ (on_join cn (bucket_of s n t) t).1.tokens ≤ cn.rate := by
  rcases OnJoinChannel_cases s t ev s1 d h with h1 | ⟨n, cn, hn, hres, hdis, hz, hs, hd⟩
  · exact Or.inl h1
  · have hni : d ≠ .Ignored := by
      rw [hd]
      rcases on_join_decision cn (bucket_of s n t) t with h1 | h1 | h1 <;> rw [h1] <;> simp
    obtain ⟨hme, hul⟩ := guards_passed s t ev s1 d h hni
    obtain ⟨ht, hf⟩ := join_fits_counted s t ev n cn hfit hn hme hul hres hdis
    have hb := bucket_of_tokens_ge s n t hinv
    obtain ⟨h0, hr⟩ := on_join_fit cn (bucket_of s n t) t (by omega) (by omega) hb ht hf
    exact Or.inr ⟨n, cn, hn, hres, hs, hd, h0, hr⟩

/-- After a step whose join, if it is one, fits: a bucket with tokens -1 either
is as it was before the step, or the step was a `SET` on its key; and no tokens
are below -1. -/
theorem tokens_ge_step (cv : String → Option Int) (s s1 : State) (e : Event)
    (hstep : step cv s e = .ok s1)
    (hfit : ∀ t ev, e = .join t ev → join_fits s t ev = true) (hinv : tokens_ge s) :
    tokens_ge s1
    ∧ ∀ name entry, JRBucket.Find s1.buckets name = some entry → entry.2.tokens = -1 →
        JRBucket.Find s.buckets name = some entry
        ∨ ∃ params, e = .command params ∧ equals_ci (params.getD 0 "") "SET" = true
            ∧ lower name = lower (params.getD 1 "") := by
  cases e with
  | join t ev =>
    simp only [step] at hstep
    cases hj : OnJoinChannel s t ev with
    | error f => rw [hj] at hstep; exact absurd hstep (by simp [Except.map])
    | ok r =>
      rw [hj] at hstep
      simp only [Except.map, Except.ok.injEq] at hstep
      subst hstep
      rcases join_step_fit s t ev r.1 r.2 hj (hfit t ev rfl) hinv with
        ⟨hs, _⟩ | ⟨n, cn, -, -, hs, -, h0, -⟩
      · rw [hs]; exact ⟨hinv, fun name entry hf _ => Or.inl hf⟩
      · rw [hs]
        constructor
        · intro name entry hf
          by_cases hk : lower name = lower n
          · rw [Find_lower _ name n hk, joined_find] at hf
            simp only [Option.some.injEq] at hf
            rw [← hf]; show -1 ≤ (on_join cn (bucket_of s n t) t).1.tokens
            omega
          · rw [joined_find_ne s n cn t name hk] at hf
            exact hinv name entry hf
        · intro name entry hf hm
          by_cases hk : lower name = lower n
          · rw [Find_lower _ name n hk, joined_find] at hf
            simp only [Option.some.injEq] at hf
            rw [← hf] at hm
            have : (on_join cn (bucket_of s n t) t).1.tokens = -1 := hm
            omega
          · rw [joined_find_ne s n cn t name hk] at hf
            exact Or.inl hf
  | command params =>
    simp only [step] at hstep
    cases hx : Execute cv s params with
    | error f => rw [hx] at hstep; exact absurd hstep (by simp [Except.map])
    | ok r =>
      rw [hx] at hstep
      simp only [Except.map, Except.ok.injEq] at hstep
      subst hstep
      rcases Execute_cases_SET cv s r.1 params r.2 hx with hs | ⟨h0, hs⟩
      · rw [hs]; exact ⟨hinv, fun name entry hf _ => Or.inl hf⟩
      · rw [hs]
        rcases SetRate_buckets cv s params with hb | hb
        · rw [tokens_ge, hb]
          exact ⟨hinv, fun name entry hf _ => Or.inl hf⟩
        · rw [tokens_ge, hb]
          constructor
          · intro name entry hf
            by_cases hk : lower name = lower (params.getD 1 "")
            · rw [invalidate_find_own s.buckets _ name entry hk hf]
            · rw [invalidate_find_ne s.buckets _ name hk] at hf
              exact hinv name entry hf
          · intro name entry hf _
            by_cases hk : lower name = lower (params.getD 1 "")
            · exact Or.inr ⟨params, rfl, h0, hk⟩
            · rw [invalidate_find_ne s.buckets _ name hk] at hf
              exact Or.inl hf
  | post_init =>
    simp only [step, Except.ok.injEq] at hstep
    subst hstep
    rw [tokens_ge, OnPostInit_buckets]
    exact ⟨hinv, fun name entry hf _ => Or.inl hf⟩

theorem tokens_ge_run (cv : String → Option Int) (evs : List Event) (s s1 : State)
    (hrun : run cv s evs = .ok s1) (hfit : fitting cv s evs = true)
    (hk : keyed s) (hinv : tokens_ge s) : keyed s1 ∧ tokens_ge s1 := by
  induction evs generalizing s with
  | nil =>
    simp only [run, Except.ok.injEq] at hrun
    subst hrun; exact ⟨hk, hinv⟩
  | cons e es ih =>
    simp only [run] at hrun
    cases hs : step cv s e with
    | error f => rw [hs] at hrun; exact absurd hrun (by simp)
    | ok s2 =>
      rw [hs] at hrun
      simp only [fitting, hs, Bool.and_eq_true] at hfit
      have hfe : ∀ t ev, e = .join t ev → join_fits s t ev = true := by
        intro t ev he
        rw [he] at hfit
        exact hfit.1
      exact ih s2 hrun hfit.2 (keyed_step cv s s2 e hs hk)
        (tokens_ge_step cv s s2 e hs hfe hinv).1

/-- C19, the claim as stated fails: in the start-up state `SET #chan 1073741824 1`
and a join of `#chan` at time 100 leave 1073741823 tokens; at the join at time
103 the refill adds `3 * 1073741824`, the sum 4294967295 does not fit the `int`
`tokens` and becomes -1: the arithmetic has produced the sentinel with no
`SET` in between, and the next join is seeded with the full rate again. -/
theorem refill_forges_sentinel :
    run convert_sample fresh_state
        [.command ["SET", "#chan", "1073741824", "1"], .join 100 (arrival "#chan")]
      = .ok power_rate
    ∧ OnJoinChannel power_rate 103 (arrival "#chan")
      = .ok ({ power_rate with buckets :=
                [("#chan", { tokens := -1, last_join_time := 103,
                             last_warn_time := 103 })] }, .Warn)
    ∧ OnJoinChannel
        { power_rate with buckets :=
            [("#chan", { tokens := -1, last_join_time := 103, last_warn_time := 103 })] }
        103 (arrival "#chan")
      = .ok ({ power_rate with buckets :=
                [("#chan", { tokens := 1073741823, last_join_time := 103,
                             last_warn_time := 103 })] }, .Admit) := by
  refine ⟨?_, ?_, ?_⟩ <;> decide

/-- C19, amended. The sentinel -1 is never produced by the arithmetic: start
with no buckets and run any sequence of joins, admin commands and `OnPostInit`
calls that completes, in which every counted join comes at a time not before
the last join of its channel and has `seed + floor(elapsed * rate / window)`
below `2^31`.  Then every stored bucket has tokens at least -1; a further join
that fits and is counted leaves its bucket with tokens between 0 and the rate;
and after a further step a bucket with tokens -1 either is as it was before the
step or the step was a `SET` on its key. -/
theorem sentinel_not_forged (cv : String → Option Int) (s0 s : State) (evs : List Event)
    (hempty : s0.buckets = []) (hfit : fitting cv s0 evs = true)
    (hrun : run cv s0 evs = .ok s) :
    (∀ entry ∈ s.buckets, -1 ≤ entry.2.tokens)
    ∧ (∀ t ev s1 d, join_fits s t ev = true → OnJoinChannel s t ev = .ok (s1, d) →
        d ≠ .Ignored → d ≠ .AdmitSilently →
          ∃ name cn entry, ev.c = some name ∧ resolve s name = .ok cn
            ∧ JRBucket.Find s1.buckets name = some entry
            ∧ 0 ≤ entry.2.tokens ∧ entry.2.tokens ≤ cn.rate)
    ∧ (∀ e s1, fitting cv s [e] = true → step cv s e = .ok s1 →
        ∀ name entry, JRBucket.Find s1.buckets name = some entry → entry.2.tokens = -1 →
          JRBucket.Find s.buckets name = some entry
          ∨ ∃ params, e = .command params ∧ equals_ci (params.getD 0 "") "SET" = true
              ∧ lower name = lower (params.getD 1 "")) := by
  have hk0 : keyed s0 := by
    unfold keyed; rw [hempty]; intro e he; simp at he
  have hi0 : tokens_ge s0 := by
    intro name entry hf
    simp [JRBucket.Find, hempty] at hf
  obtain ⟨hk, hinv⟩ := tokens_ge_run cv evs s0 s hrun hfit hk0 hi0
  refine ⟨?_, ?_, ?_⟩
  · intro entry he
    exact hinv entry.1 entry (hk entry he)
  · intro t ev s1 d hf hj hd1 hd2
    rcases join_step_fit s t ev s1 d hj hf hinv with ⟨_, h | h⟩ | ⟨n, cn, hn, hres, hs, -, h0, hr⟩
    · exact absurd h hd1
    · exact absurd h hd2
    · exact ⟨n, cn, _, hn, hres, by rw [hs]; exact joined_find s n cn t, h0, hr⟩
  · intro e s1 hfe hstep
    have hfe2 : ∀ t ev, e = .join t ev → join_fits s t ev = true := by
      intro t ev he
      simp only [fitting, Bool.and_eq_true] at hfe
      rw [he] at hfe
      exact hfe.1
    exact (tokens_ge_step cv s s1 e hstep hfe2 hinv).2

/-- C19 amended, at a concrete input: from the start-up state, joins of `#chan`
and `#other` around `SET #chan 10 5` and `SET #other DEFAULT`. -/
theorem sentinel_not_forged_witness :
    fitting convert_sample fresh_state
        [.join 100 (arrival "#chan"), .command ["SET", "#chan", "10", "5"],
         .join 101 (arrival "#Chan"), .join 101 (arrival "#other"),
         .command ["SET", "#other", "DEFAULT"], .post_init, .command ["GET", "DEFAULT"]]
      = true
    ∧ ∀ entry ∈ two_buckets.buckets, -1 ≤ entry.2.tokens :=
  ⟨by decide,
   (sentinel_not_forged convert_sample fresh_state two_buckets
     [.join 100 (arrival "#chan"), .command ["SET", "#chan", "10", "5"],
      .join 101 (arrival "#Chan"), .join 101 (arrival "#other"),
      .command ["SET", "#other", "DEFAULT"], .post_init, .command ["GET", "DEFAULT"]]
     (by decide) (by decide) (by decide)).1⟩

/-! ## A join touches one bucket only -/

theorem filter_write (bs : List (String × JRBucket)) (k : String) (b : JRBucket) :
    (JRBucket.write bs k b).filter (fun e => !(e.1 == k)) = bs.filter (fun e => !(e.1 == k)) := by
  induction bs with
  | nil => rfl
  | cons x xs ih =>
    simp only [JRBucket.write] at ih
    by_cases hx : x.1 = k
    · have hx1 : (x.1 == k) = true := by simpa using hx
      simp only [JRBucket.write, List.map_cons, hx1, if_true, List.filter_cons,
        Bool.not_true, Bool.false_eq_true, if_false, ih]
    · have hx2 : (x.1 == k) = false := by simpa using hx
      simp only [JRBucket.write, List.map_cons, hx2, Bool.false_eq_true, if_false,
        List.filter_cons, Bool.not_false, if_true, ih]

theorem filter_insert (bs : List (String × JRBucket)) (k : String) (b : JRBucket) :
    (JRBucket.insert bs k b).filter (fun e => !(e.1 == k)) = bs.filter (fun e => !(e.1 == k)) := by
  unfold JRBucket.insert
  split
  · exact filter_write bs k b
  · simp [List.filter_cons]

theorem filter_joined (s : State) (name : String) (cn : JRConfig) (t : Int) :
    (joined s name cn t).buckets.filter (fun e => !(e.1 == lower name))
      = s.buckets.filter (fun e => !(e.1 == lower name)) := by
  simp only [joined]
  rw [filter_write]
  simp only [JRBucket.FindOrCreate]
  cases JRBucket.Find s.buckets (lower name) with
  | some e => rfl
  | none => exact filter_insert s.buckets (lower name) _

/-- C20. Per-key isolation of arrivals: a call of `OnJoinChannel` that returns
leaves `configs`, `default_config` and `ready` as they were; for the channel
name `k` of the join, every stored bucket whose key is not the lower-cased `k`
is left in place and unchanged, and a lookup of any name that differs from `k`
also when case is ignored gives what it gave before. -/
theorem arrival_isolation (s : State) (t : Int) (ev : JoinEvent) (s1 : State) (d : Decision)
    (h : OnJoinChannel s t ev = .ok (s1, d)) :
    s1.configs = s.configs ∧ s1.default_config = s.default_config ∧ s1.ready = s.ready
    ∧ (ev.c = none → s1.buckets = s.buckets)
    ∧ ∀ k, ev.c = some k →
        s1.buckets.filter (fun e => !(e.1 == lower k))
          = s.buckets.filter (fun e => !(e.1 == lower k))
        ∧ ∀ name, equals_ci name k = false →
            JRBucket.Find s1.buckets name = JRBucket.Find s.buckets name := by
  rcases OnJoinChannel_cases s t ev s1 d h with ⟨hs, _⟩ | ⟨n, cn, hn, -, -, -, hs, -⟩
  · rw [hs]
    exact ⟨rfl, rfl, rfl, fun _ => rfl, fun k _ => ⟨rfl, fun _ _ => rfl⟩⟩
  · rw [hs]
    refine ⟨rfl, rfl, rfl, ?_, ?_⟩
    · intro hnone
      rw [hnone] at hn
      exact absurd hn (by simp)
    · intro k hk
      rw [hn] at hk
      simp only [Option.some.injEq] at hk
      subst hk
      refine ⟨filter_joined s n cn t, ?_⟩
      intro name hne
      apply joined_find_ne
      intro hl
      rw [(equals_ci_iff name n).mpr hl] at hne
      exact absurd hne (by simp)

/-- C20 at a concrete input: the state with buckets for `#other` and `#chan`
and a join of `#CHAN` at time 105. -/
theorem arrival_isolation_witness :
    OnJoinChannel two_buckets 105 (arrival "#CHAN")
      = .ok ({ two_buckets with buckets :=
                [("#other", { tokens := -1, last_join_time := 101, last_warn_time := 0 }),
                 ("#chan", { tokens := 9, last_join_time := 105, last_warn_time := 0 })] },
             .Admit)
    ∧ JRBucket.Find
        [("#other", ({ tokens := -1, last_join_time := 101, last_warn_time := 0 } : JRBucket)),
         ("#chan", { tokens := 9, last_join_time := 105, last_warn_time := 0 })] "#Other"
      = JRBucket.Find two_buckets.buckets "#Other" :=
  ⟨by decide,
   ((arrival_isolation two_buckets 105 (arrival "#CHAN")
      { two_buckets with buckets :=
          [("#other", { tokens := -1, last_join_time := 101, last_warn_time := 0 }),
           ("#chan", { tokens := 9, last_join_time := 105, last_warn_time := 0 })] }
      .Admit (by decide)).2.2.2.2 "#CHAN" rfl).2 "#Other" (by decide)⟩

end JoinRate
